import Mathlib

/-!
# Verification of the backlog-assist storage, reducer and generator core

Shallow embedding of `src/utils/localStorage.ts`, `src/contexts/AppContext.tsx`
and `src/utils/markdownGenerator.ts` of the backlog-assist repository, together
with proofs about the embedded functions.

The persisted store is modelled as three cells of optional text, where a text
is either something `JSON.parse` accepts (represented directly by the parsed
value) or something it rejects.  JavaScript runtime values are modelled by
`JVal`: JSON values plus the in-memory-only `Date` objects and `undefined`.
Date timestamps are integers (milliseconds since the epoch, possibly
negative); the ISO-8601 encoding that `JSON.stringify`
applies to a `Date` is modelled abstractly by an injective encoding
(`dateEncode`) whose platform inverse (`Date` parsing) is `dateDecode`; the
code never inspects the characters of the encoded form, only round-trips it.
-/

namespace BacklogAssist

/-- JavaScript values as the storage layer sees them: the JSON values, plus
`undefined` and `Date` objects, which exist in memory only.  A `Date` carries
an optional timestamp, `none` standing for an Invalid Date.  Objects are
insertion-ordered field lists with unique keys, as produced by literals,
spreads and `JSON.parse`. -/
inductive JVal where
  | null
  | undefined
  | jbool (b : Bool)
  | num (n : Int)
  | str (s : String)
  | date (t : Option Int)
  | arr (xs : List JVal)
  | obj (fs : List (String × JVal))
deriving Repr

/-- First field with the given key, or `undefined` when absent.  Models `o.f`
property access on objects; on non-null primitives JavaScript also yields
`undefined` for the named fields read here.  Call sites where the receiver
can be `null` (where JavaScript throws) guard that case explicitly. -/
def findField : List (String × JVal) → String → JVal
  | [], _ => .undefined
  | (k, v) :: rest, f => if k = f then v else findField rest f

/-- Property read `x.f`. -/
def getField : JVal → String → JVal
  | .obj fs, f => findField fs f
  | _, _ => .undefined

/-- Field assignment/override: keeps the key's position when present,
appends otherwise — JavaScript object update order. -/
def setFields (fs : List (String × JVal)) (f : String) (v : JVal) :
    List (String × JVal) :=
  match fs with
  | [] => [(f, v)]
  | (k, w) :: rest => if k = f then (k, v) :: rest else (k, w) :: setFields rest f v

/-- The own enumerable fields contributed by spreading `x`; spreading a
primitive contributes none (string index properties are elided: no named
field read by this code can collide with them). -/
def fieldsOf : JVal → List (String × JVal)
  | .obj fs => fs
  | _ => []

/-- The object literal `\x7b...x, f: v\x7d`. -/
def spreadSet (x : JVal) (f : String) (v : JVal) : JVal :=
  .obj (setFields (fieldsOf x) f v)

/-- JavaScript truthiness of the values arising here (`NaN` does not arise). -/
def truthy : JVal → Bool
  | .null => false
  | .undefined => false
  | .jbool b => b
  | .num n => n != 0
  | .str s => s != ""
  | .date _ => true
  | .arr _ => true
  | .obj _ => true

/-- The `typeof` operator. -/
def jtypeof : JVal → String
  | .null => "object"
  | .undefined => "undefined"
  | .jbool _ => "boolean"
  | .num _ => "number"
  | .str _ => "string"
  | .date _ => "object"
  | .arr _ => "object"
  | .obj _ => "object"

/-- `Array.isArray`. -/
def isArr : JVal → Bool
  | .arr _ => true
  | _ => false

/-- `x === null || x === undefined`: the receivers on which a property read
would throw a `TypeError`. -/
def jIsNullish : JVal → Bool
  | .null => true
  | .undefined => true
  | _ => false

/-- JavaScript strict equality at the call sites of this code base:
primitives compare by value; objects, arrays and dates compare by reference,
and the two operands always come from different object graphs here, hence
`false`. -/
def jStrictEq : JVal → JVal → Bool
  | .null, .null => true
  | .undefined, .undefined => true
  | .jbool a, .jbool b => a == b
  | .num a, .num b => a == b
  | .str a, .str b => a == b
  | _, _ => false

/-- The ISO-8601 rendering of a timestamp, modelled abstractly by an
injective encoding (the code never reads the characters, it only feeds the
string back to the `Date` constructor).  A nonnegative timestamp `n` is
`n + 1` copies of `D`; a negative one is marked by a leading `N`. -/
def dateEncode : Int → String
  | .ofNat n => String.mk (List.replicate (n + 1) 'D')
  | .negSucc n => String.mk ('N' :: List.replicate (n + 1) 'D')

/-- Character-level reading of the abstract encoding. -/
def decodeChars : List Char → Option Int
  | [] => none
  | c :: rest =>
      if c == 'D' && rest.all (· == 'D') then some (Int.ofNat rest.length)
      else if c == 'N' && rest.length != 0 && rest.all (· == 'D') then
        some (Int.negSucc (rest.length - 1))
      else none

/-- The platform's `Date`-string parsing, the inverse of `dateEncode`;
strings outside its image give an Invalid Date (`none`). -/
def dateDecode (s : String) : Option Int :=
  decodeChars s.data

/-- The `new Date(x)` constructor on the values it receives here.  A number
is taken as a millisecond timestamp; a string goes through `Date` parsing;
`null` and `false` coerce through `ToNumber` to `+0` (so `new Date(null)` is
the epoch, not an Invalid Date) and `true` to `1`; `undefined` gives `NaN`,
an Invalid Date, as do arrays and plain objects via `ToPrimitive` followed
by a failing parse of their string form. -/
def newDate : JVal → JVal
  | .num n => .date (some n)
  | .str s => .date (dateDecode s)
  | .date t => .date t
  | .jbool b => .date (some (if b then 1 else 0))
  | .null => .date (some 0)
  | _ => .date none

mutual
/-- `JSON.parse(JSON.stringify v)` in one step: what the value looks like
after a trip through the stored text.  A valid `Date` becomes its encoded
string, an Invalid Date becomes `null` (its `toJSON` is `null`), `undefined`
becomes `null` at array positions and disappears at object fields. -/
def norm : JVal → JVal
  | .null => .null
  | .undefined => .null
  | .jbool b => .jbool b
  | .num n => .num n
  | .str s => .str s
  | .date (some t) => .str (dateEncode t)
  | .date none => .null
  | .arr xs => .arr (normList xs)
  | .obj fs => .obj (normFields fs)

def normList : List JVal → List JVal
  | [] => []
  | x :: xs => norm x :: normList xs

def normFields : List (String × JVal) → List (String × JVal)
  | [] => []
  | (_, .undefined) :: rest => normFields rest
  | (k, v) :: rest => (k, norm v) :: normFields rest
end

mutual
/-- Values in the image of `JSON.parse`: no dates, no `undefined`. -/
def isPure : JVal → Bool
  | .null => true
  | .undefined => false
  | .jbool _ => true
  | .num _ => true
  | .str _ => true
  | .date _ => false
  | .arr xs => isPureList xs
  | .obj fs => isPureFields fs

def isPureList : List JVal → Bool
  | [] => true
  | x :: xs => isPure x && isPureList xs

def isPureFields : List (String × JVal) → Bool
  | [] => true
  | (_, v) :: rest => isPure v && isPureFields rest
end

/-! ## The durable store (`src/utils/localStorage.ts`)

`localStorage` holds up to three text blobs, one per `STORAGE_KEYS` entry.
A stored text either parses (`Cell.txt v`, with `v` the parsed value) or is
rejected by `JSON.parse` (`Cell.bad`; the empty string, also falsy, behaves
the same at every read site and is folded into `bad`). -/

/-- One persisted text blob. -/
inductive Cell where
  | txt (v : JVal)
  | bad
deriving Repr

/-- The store: one optional cell per fixed key (`backlog-assist-rulesets`,
`backlog-assist-form-data`, `backlog-assist-checklist-state`). -/
structure Store where
  ruleSets : Option Cell
  formData : Option Cell
  checklist : Option Cell
deriving Repr

/-- Real stored text always parses to pure JSON; quantified theorems about
arbitrary stores assume this well-formedness. -/
def cellPure : Option Cell → Bool
  | some (.txt v) => isPure v
  | _ => true

/-- All three cells hold realisable text. -/
def Store.WF (s : Store) : Bool :=
  cellPure s.ruleSets && cellPure s.formData && cellPure s.checklist

/-- The `\x7b...ruleSet, createdAt: new Date(ruleSet.createdAt),
updatedAt: new Date(ruleSet.updatedAt)\x7d` conversion applied both by
`getRuleSets` and by `importData`. -/
def remapDates (x : JVal) : JVal :=
  .obj (setFields (setFields (fieldsOf x) "createdAt" (newDate (getField x "createdAt")))
    "updatedAt" (newDate (getField x "updatedAt")))

/-- `localStorageUtils.getRuleSets` (localStorage.ts:165-181).  Parse
failures, a parsed value without `.map`, and the `TypeError` thrown by
reading `.createdAt` of a `null` element are all caught, yielding `[]`. -/
def getRuleSets (s : Store) : List JVal :=
  match s.ruleSets with
  | some (.txt (.arr xs)) => if xs.any jIsNullish then [] else xs.map remapDates
  | _ => []

/-- `localStorageUtils.saveRuleSet` (localStorage.ts:151-163), on the
JavaScript value it receives (typed callers pass an encoded `RuleSet`,
`importData` passes a decoded blob).  `new Date()` is the `now` argument. -/
def saveRuleSetJ (s : Store) (ruleSet : JVal) (now : Nat) : Store :=
  let existingRuleSets := getRuleSets s
  let updatedRuleSets :=
    existingRuleSets.filter (fun rs => !(jStrictEq (getField rs "id") (getField ruleSet "id")))
  let stored := norm (.arr (updatedRuleSets ++ [spreadSet ruleSet "updatedAt" (.date (some now))]))
  { s with ruleSets := some (.txt stored) }

/-- `localStorageUtils.removeRuleSet` (localStorage.ts:183-191). -/
def removeRuleSet (s : Store) (ruleSetId : String) : Store :=
  let updatedRuleSets :=
    (getRuleSets s).filter (fun rs => !(jStrictEq (getField rs "id") (.str ruleSetId)))
  { s with ruleSets := some (.txt (norm (.arr updatedRuleSets))) }

/-- `localStorageUtils.saveFormData` (localStorage.ts:194-205) on the value
it receives.  `reportData.screenshots?.map(file => file.name) || []`: a
nullish receiver or missing field gives `[]`; a non-array, non-nullish field
(`.map` is not a function) or a `null` array element (reading `.name`
throws) raises a `TypeError`, caught by the function, so nothing is saved. -/
def saveFormDataJ (s : Store) (reportData : JVal) : Store :=
  if jIsNullish reportData then s
  else
    match getField reportData "screenshots" with
    | .null => { s with formData := some (.txt (norm (spreadSet reportData "screenshots" (.arr [])))) }
    | .undefined => { s with formData := some (.txt (norm (spreadSet reportData "screenshots" (.arr [])))) }
    | .arr files =>
        if files.any jIsNullish then s
        else
          let names := files.map (fun file => getField file "name")
          { s with formData := some (.txt (norm (spreadSet reportData "screenshots" (.arr names)))) }
    | _ => s

/-- `localStorageUtils.getFormData` (localStorage.ts:207-224).  A parse
failure, or the `TypeError` from reading `.screenshots` of a parsed `null`,
is caught, returning `null`; a stored screenshots array is reset to `[]`. -/
def getFormDataJ (s : Store) : Option JVal :=
  match s.formData with
  | some (.txt v) =>
      if jIsNullish v then none
      else
        match getField v "screenshots" with
        | .arr _ => some (.obj (setFields (fieldsOf v) "screenshots" (.arr [])))
        | _ => some v
  | _ => none

/-- `localStorageUtils.clearFormData` (localStorage.ts:226-232). -/
def clearFormData (s : Store) : Store := { s with formData := none }

/-- `localStorageUtils.saveChecklistState` (localStorage.ts:235-241). -/
def saveChecklistStateJ (s : Store) (checklist : JVal) : Store :=
  { s with checklist := some (.txt (norm checklist)) }

/-- `localStorageUtils.getChecklistState` (localStorage.ts:243-251). -/
def getChecklistState (s : Store) : Option JVal :=
  match s.checklist with
  | some (.txt v) => some v
  | _ => none

/-- `localStorageUtils.clearChecklistState` (localStorage.ts:253-259). -/
def clearChecklistState (s : Store) : Store := { s with checklist := none }

/-- `localStorageUtils.clearAllData` (localStorage.ts:333-341). -/
def clearAllData (_s : Store) : Store := ⟨none, none, none⟩

/-! ## Integrity validation and repair -/

/-- `['low', 'medium', 'high'].includes(x)` (strict equality per element). -/
def priorityIncluded : JVal → Bool
  | .str s => s == "low" || s == "medium" || s == "high"
  | _ => false

/-- The per-element checks of `validateStoredData` on one decoded rule set
(localStorage.ts:272-285).  Elements of `getRuleSets` are always objects
(the spread in `remapDates`), so the property reads cannot throw; after
`remapDates`, `createdAt` is always a `Date` instance, so the `createdAt`
branch never fires — it is kept verbatim nonetheless. -/
def ruleSetErrorsAt (index : Nat) (ruleSet : JVal) : List String :=
  (if !(truthy (getField ruleSet "id")) || jtypeof (getField ruleSet "id") != "string"
    then ["Rule set at index " ++ toString index ++ " has invalid id"] else []) ++
  (if !(truthy (getField ruleSet "name")) || jtypeof (getField ruleSet "name") != "string"
    then ["Rule set at index " ++ toString index ++ " has invalid name"] else []) ++
  (if !(isArr (getField ruleSet "rules"))
    then ["Rule set at index " ++ toString index ++ " has invalid rules array"] else []) ++
  (if !(match getField ruleSet "createdAt" with | .date _ => true | _ => false)
      && !(truthy (getField ruleSet "createdAt"))
    then ["Rule set at index " ++ toString index ++ " has invalid createdAt date"] else [])

/-- The rule-set section of `validateStoredData` (localStorage.ts:267-287).
`getRuleSets` returns an array, always truthy, so the is-not-an-array branch
is dead. -/
def ruleSetsErrors (s : Store) : List String :=
  ((getRuleSets s).enum.map (fun p => ruleSetErrorsAt p.1 p.2)).flatten

/-- The form-data section of `validateStoredData` (localStorage.ts:290-302).
`getFormData` never returns JavaScript `null` through a truthy guard, so the
`formData === null` disjunct is dead. -/
def formDataErrors (s : Store) : List String :=
  match getFormDataJ s with
  | none => []
  | some formData =>
      if !(truthy formData) then []
      else if jtypeof formData != "object" then ["Form data is not a valid object"]
      else
        (if truthy (getField formData "priority") && !(priorityIncluded (getField formData "priority"))
          then ["Form data has invalid priority value"] else []) ++
        (if truthy (getField formData "screenshots") && !(isArr (getField formData "screenshots"))
          then ["Form data screenshots is not an array"] else [])

/-- The per-item checks on one decoded checklist element
(localStorage.ts:310-320), for a non-null element. -/
def checklistItemErrorsAt (index : Nat) (item : JVal) : List String :=
  (if !(truthy (getField item "id")) || jtypeof (getField item "id") != "string"
    then ["Checklist item at index " ++ toString index ++ " has invalid id"] else []) ++
  (if !(truthy (getField item "text")) || jtypeof (getField item "text") != "string"
    then ["Checklist item at index " ++ toString index ++ " has invalid text"] else []) ++
  (if jtypeof (getField item "checked") != "boolean"
    then ["Checklist item at index " ++ toString index ++ " has invalid checked value"] else [])

/-- The message of the `TypeError` thrown by reading `.id` of a `null`
checklist element, as pushed by the catch of `validateStoredData`
(localStorage.ts:327).  The platform-generated text is modelled abstractly;
only its presence is ever observed. -/
def validationCaughtError : String :=
  "Validation error: Cannot read properties of null"

/-- The checklist `forEach` of `validateStoredData`: errors accumulated in
order, stopping with `true` if a `null` element throws. -/
def checklistScan (index : Nat) : List JVal → List String × Bool
  | [] => ([], false)
  | item :: rest =>
      if jIsNullish item then ([], true)
      else
        let tail := checklistScan (index + 1) rest
        (checklistItemErrorsAt index item ++ tail.1, tail.2)

/-- `localStorageUtils.validateStoredData` (localStorage.ts:262-330):
`(isValid, errors)`.  On a throw inside the checklist scan the catch pushes
`validationCaughtError`; `isValid` is `errors.length === 0`, which the catch
path also returns (its list is then non-empty). -/
def validateStoredData (s : Store) : Bool × List String :=
  let e1 := ruleSetsErrors s
  let e2 := formDataErrors s
  let e3 :=
    match getChecklistState s with
    | none => ([], false)
    | some checklistState =>
        if !(truthy checklistState) then ([], false)
        else
          match checklistState with
          | .arr items => checklistScan 0 items
          | _ => (["Checklist state is not an array"], false)
  let errors := e1 ++ e2 ++ e3.1 ++ (if e3.2 then [validationCaughtError] else [])
  (errors.isEmpty, errors)

/-- The keep-filter of the rule-set repair (localStorage.ts:448-450):
`ruleSet.id && ruleSet.name && Array.isArray(ruleSet.rules)`. -/
def repairKeep (ruleSet : JVal) : Bool :=
  truthy (getField ruleSet "id") && truthy (getField ruleSet "name")
    && isArr (getField ruleSet "rules")

/-- `localStorageUtils.repairData` (localStorage.ts:437-498), returning the
reported `(repaired, actions)` and the store it leaves behind.  The getters
catch their own exceptions, so the catch branches of the three repair steps
are unreachable; `repaired` is set exactly when an action is pushed. -/
def repairData (s : Store) : (Bool × List String) × Store :=
  let validation := validateStoredData s
  if validation.1 then ((false, []), s)
  else
    let ruleSets := getRuleSets s
    let validRuleSets := ruleSets.filter repairKeep
    let step1 : List String × Store :=
      if validRuleSets.length != ruleSets.length then
        let stored := norm (.arr validRuleSets)
        ([toString (ruleSets.length - validRuleSets.length) ++ "個の無効なルールセットを削除しました"],
          { s with ruleSets := some (.txt stored) })
      else ([], s)
    let step2 : List String × Store :=
      match getFormDataJ step1.2 with
      | some formData =>
          if truthy formData && jtypeof formData != "object" then
            (["破損したフォームデータを削除しました"], { step1.2 with formData := none })
          else ([], step1.2)
      | none => ([], step1.2)
    let step3 : List String × Store :=
      match getChecklistState step2.2 with
      | some checklistState =>
          if truthy checklistState && !(isArr checklistState) then
            (["破損したチェックリスト状態を削除しました"], { step2.2 with checklist := none })
          else ([], step2.2)
      | none => ([], step2.2)
    let actions := step1.1 ++ step2.1 ++ step3.1
    ((!actions.isEmpty, actions), step3.2)

/-! ## Import/export -/

/-- A getter's `null` result, as embedded in the export bundle. -/
def optJ : Option JVal → JVal
  | none => .null
  | some v => v

/-- `localStorageUtils.exportData` (localStorage.ts:370-384): the exported
text.  `new Date().toISOString()` is `dateEncode now`. -/
def exportData (s : Store) (now : Nat) : Cell :=
  .txt (norm (.obj [("ruleSets", .arr (getRuleSets s)),
    ("formData", optJ (getFormDataJ s)),
    ("checklistState", optJ (getChecklistState s)),
    ("exportedAt", .str (dateEncode now)),
    ("version", .str "1.0.0")]))

/-- The `data.ruleSets.forEach` of `importData` (localStorage.ts:398-410).
A `null` element makes the spread throw; the catch then reads
`ruleSet.name`, throwing again, which escapes to the outer catch — so the
scan also reports whether it aborted. -/
def importRuleSets (s : Store) (now : Nat) : List JVal → Store × Bool
  | [] => (s, false)
  | ruleSet :: rest =>
      if jIsNullish ruleSet then (s, true)
      else importRuleSets (saveRuleSetJ s (remapDates ruleSet) now) now rest

/-- `localStorageUtils.importData` (localStorage.ts:387-434):
`({success, errors}, store)`.  `saveRuleSet`, `saveFormData` and
`saveChecklistState` catch internally, so the only reachable error pushes
are the missing-version warning and the outer parse-failure catch.  Text
parsing to `null` makes the very first read, `data.version`, throw, which
the outer catch turns into the parse-failure message. -/
def importData (s : Store) (jsonData : Cell) (now : Nat) : (Bool × List String) × Store :=
  match jsonData with
  | .bad => ((false, ["データの解析に失敗しました。有効なJSONファイルを選択してください。"]), s)
  | .txt data =>
      if jIsNullish data then
        ((false, ["データの解析に失敗しました。有効なJSONファイルを選択してください。"]), s)
      else
        let e1 := if !(truthy (getField data "version"))
          then ["インポートデータにバージョン情報がありません"] else []
        let step1 : Store × Bool :=
          match getField data "ruleSets" with
          | .arr ruleSets => importRuleSets s now ruleSets
          | _ => (s, false)
        if step1.2 then
          ((false, e1 ++ ["データの解析に失敗しました。有効なJSONファイルを選択してください。"]), step1.1)
        else
          let step2 := if truthy (getField data "formData")
            then saveFormDataJ step1.1 (getField data "formData") else step1.1
          let step3 :=
            match getField data "checklistState" with
            | .arr items => saveChecklistStateJ step2 (.arr items)
            | _ => step2
          ((e1.isEmpty, e1), step3)

/-! ## Typed data model (`src/types/index.ts`) -/

/-- `Rule` (types/index.ts:10-16). -/
structure Rule where
  id : String
  text : String
  category : String
  priority : Int
  description : Option String
deriving Repr, DecidableEq

/-- `RuleSet` (types/index.ts:18-26); timestamps as abstract instants. -/
structure RuleSet where
  id : String
  name : String
  description : String
  version : String
  rules : List Rule
  createdAt : Nat
  updatedAt : Nat
deriving Repr, DecidableEq

/-- `ChecklistItem` (types/index.ts:3-8). -/
structure ChecklistItem where
  id : String
  text : String
  checked : Bool
  category : Option String
deriving Repr, DecidableEq

/-- A `File` handle: only its name is ever read by this core. -/
structure FileObj where
  name : String
deriving Repr, DecidableEq

/-- `ReportData` (types/index.ts:28-35).  The priority union type is erased
at runtime; well-typed callers pass one of `low`, `medium`, `high`. -/
structure ReportData where
  issueNumber : String
  screenshots : List FileObj
  description : String
  priority : String
  category : String
  relatedIssues : Option (List String)
deriving Repr, DecidableEq

/-- `AppState` (types/index.ts:43-49). -/
structure AppState where
  selectedRuleSet : Option RuleSet
  checklist : List ChecklistItem
  reportData : ReportData
  availableRuleSets : List RuleSet
  generatedMarkdown : String
deriving Repr, DecidableEq

/-- `AppAction` as handled by the reducer (AppContext.tsx:28-82; the
`RESET_RULE_SET` case is dispatched by `setRuleSet(null)`). -/
inductive AppAction where
  | SET_RULE_SET (payload : RuleSet)
  | RESET_RULE_SET
  | UPDATE_CHECKLIST (payload : List ChecklistItem)
  | UPDATE_REPORT_DATA (payload : ReportData)
  | GENERATE_MARKDOWN (payload : String)
  | SET_AVAILABLE_RULE_SETS (payload : List RuleSet)
deriving Repr

/-- `appReducer` (AppContext.tsx:27-83). -/
def appReducer (state : AppState) (action : AppAction) : AppState :=
  match action with
  | .SET_RULE_SET payload =>
      let checklist := payload.rules.map (fun rule =>
        ChecklistItem.mk rule.id rule.text false (some rule.category))
      { state with
          selectedRuleSet := some payload
          checklist := checklist
          generatedMarkdown := "" }
  | .RESET_RULE_SET =>
      { state with selectedRuleSet := none, checklist := [], generatedMarkdown := "" }
  | .UPDATE_CHECKLIST payload =>
      { state with checklist := payload, generatedMarkdown := "" }
  | .UPDATE_REPORT_DATA payload =>
      { state with reportData := payload, generatedMarkdown := "" }
  | .GENERATE_MARKDOWN payload =>
      { state with generatedMarkdown := payload }
  | .SET_AVAILABLE_RULE_SETS payload =>
      { state with availableRuleSets := payload }

/-! ## Encoding typed values as the JavaScript values the storage layer
receives from well-typed callers -/

/-- A `Rule` as a JavaScript object; an absent optional description is an
absent field (`JSON.stringify` would drop an `undefined` field anyway). -/
def jvalOfRule (r : Rule) : JVal :=
  .obj ([("id", .str r.id), ("text", .str r.text), ("category", .str r.category),
    ("priority", .num r.priority)] ++
    (match r.description with
     | some d => [("description", .str d)]
     | none => []))

/-- A `RuleSet` as the JavaScript object passed to `saveRuleSet`. -/
def jvalOfRuleSet (rs : RuleSet) : JVal :=
  .obj [("id", .str rs.id), ("name", .str rs.name), ("description", .str rs.description),
    ("version", .str rs.version), ("rules", .arr (rs.rules.map jvalOfRule)),
    ("createdAt", .date (some rs.createdAt)), ("updatedAt", .date (some rs.updatedAt))]

/-- A `ReportData` as the JavaScript object passed to `saveFormData`.
A `File` serialises through `.name` only. -/
def jvalOfReportData (r : ReportData) : JVal :=
  .obj ([("issueNumber", .str r.issueNumber),
    ("screenshots", .arr (r.screenshots.map (fun f => .obj [("name", .str f.name)]))),
    ("description", .str r.description), ("priority", .str r.priority),
    ("category", .str r.category)] ++
    (match r.relatedIssues with
     | some l => [("relatedIssues", .arr (l.map .str))]
     | none => []))

/-! ## The document generator (`src/utils/markdownGenerator.ts`) -/

/-- `Array.prototype.join(sep)`. -/
def joinSep (sep : String) : List String → String
  | [] => ""
  | [x] => x
  | x :: xs => x ++ sep ++ joinSep sep xs

/-- `getPriorityLabel` (markdownGenerator.ts:122-129). -/
def getPriorityLabel (priority : String) : String :=
  if priority == "low" then "低"
  else if priority == "medium" then "中"
  else if priority == "high" then "高"
  else priority

/-- `generateBasicInfo` (markdownGenerator.ts:29-48).  The embedded
`new Date().toLocaleString(...)` wall-clock text is the `now` parameter. -/
def generateBasicInfo (reportData : ReportData) (now : String) : String :=
  joinSep "\n" ["## 基本情報", "",
    "* **課題番号**: " ++ (if reportData.issueNumber == "" then "未設定" else reportData.issueNumber),
    "* **優先度**: " ++ getPriorityLabel reportData.priority,
    "* **カテゴリ**: " ++ (if reportData.category == "" then "未設定" else reportData.category),
    "* **報告日時**: " ++ now]

/-- `item.category || 'その他'` (markdownGenerator.ts:136): the grouping
key, with the empty string falsy. -/
def catKey (item : ChecklistItem) : String :=
  match item.category with
  | some s => if s == "" then "その他" else s
  | none => "その他"

/-- One step of the `reduce` in `groupByCategory`: append to the group of
`key` if present (insertion order preserved), otherwise add a new group at
the end. -/
def insertGrouped (gs : List (String × List ChecklistItem)) (key : String)
    (item : ChecklistItem) : List (String × List ChecklistItem) :=
  match gs with
  | [] => [(key, [item])]
  | (k, items) :: rest =>
      if k = key then (k, items ++ [item]) :: rest
      else (k, items) :: insertGrouped rest key item

/-- `groupByCategory` (markdownGenerator.ts:134-143); `Object.entries`
yields insertion order for the string category keys arising here (a
category name that is a canonical array index would be enumerated first by
the platform, permuting whole sections; no theorem below depends on the
order between distinct categories). -/
def groupByCategory (checklist : List ChecklistItem) : List (String × List ChecklistItem) :=
  checklist.foldl (fun gs item => insertGrouped gs (catKey item) item) []

/-- One rendered checklist line (markdownGenerator.ts:62-63). -/
def itemLine (item : ChecklistItem) : String :=
  "* [" ++ (if item.checked then "x" else " ") ++ "] " ++ item.text

/-- One rendered category section (markdownGenerator.ts:66-70). -/
def renderGroup (g : String × List ChecklistItem) : String :=
  joinSep "\n" ["### " ++ g.1, "", joinSep "\n" (g.2.map itemLine)]

/-- `generateChecklistResults` (markdownGenerator.ts:53-74). -/
def generateChecklistResults (checklist : List ChecklistItem) : String :=
  if checklist.isEmpty then "## チェックリスト結果\n\n*チェックリストが選択されていません*"
  else joinSep "\n\n" (["## チェックリスト結果", ""] ++ (groupByCategory checklist).map renderGroup)

/-- `generateAttachments` (markdownGenerator.ts:79-86). -/
def generateAttachments (screenshots : List FileObj) : String :=
  if screenshots.isEmpty then "## 添付ファイル\n\n*添付ファイルはありません*"
  else joinSep "\n" ["## 添付ファイル", "",
    joinSep "\n" (screenshots.map (fun file => "* " ++ file.name))]

/-- `generateDescription` (markdownGenerator.ts:91-97). -/
def generateDescription (description : String) : String :=
  if description.trim == "" then "## 詳細説明\n\n*詳細説明は記載されていません*"
  else joinSep "\n" ["## 詳細説明", "", description.trim]

/-- `generateRelatedIssues` (markdownGenerator.ts:102-117). -/
def generateRelatedIssues (relatedIssues : List String) : String :=
  if relatedIssues.isEmpty then ""
  else
    let issueLinks := joinSep " "
      ((relatedIssues.filter (fun issue => issue.trim != "")).map
        (fun issue => "[[" ++ issue.trim ++ "]]"))
    if issueLinks == "" then ""
    else joinSep "\n" ["## 関連課題", "", issueLinks]

/-- `generateMarkdown` (markdownGenerator.ts:149-174).  The wall-clock text
embedded by `generateBasicInfo` is the `now` parameter; the claims hold it
fixed. -/
def generateMarkdown (checklist : List ChecklistItem) (reportData : ReportData)
    (now : String) : String :=
  let sections := ["# 課題レビュー報告", "", generateBasicInfo reportData now,
    "-----", "", generateChecklistResults checklist,
    "-----", "", generateAttachments reportData.screenshots,
    "-----", "", generateDescription reportData.description]
  let relatedIssuesSection := generateRelatedIssues (reportData.relatedIssues.getD [])
  let sections := if relatedIssuesSection != ""
    then sections ++ ["-----", "", relatedIssuesSection] else sections
  joinSep "\n" sections

/-! ## Field-access lemmas -/

theorem findField_setFields_self (fs : List (String × JVal)) (k : String) (v : JVal) :
    findField (setFields fs k v) k = v := by
  induction fs with
  | nil => simp [setFields, findField]
  | cons p rest ih =>
      obtain ⟨a, w⟩ := p
      by_cases h : a = k
      · simp [setFields, h, findField]
      · simp [setFields, h, findField, ih]

theorem findField_setFields_ne (fs : List (String × JVal)) (k f : String) (v : JVal)
    (h : f ≠ k) : findField (setFields fs k v) f = findField fs f := by
  have h' : k ≠ f := Ne.symm h
  induction fs with
  | nil => simp [setFields, findField, h']
  | cons p rest ih =>
      obtain ⟨a, w⟩ := p
      by_cases ha : a = k
      · subst ha
        simp [setFields, findField, h']
      · simp [setFields, findField, ha, ih]

theorem setFields_setFields_self (fs : List (String × JVal)) (k : String) (v w : JVal) :
    setFields (setFields fs k v) k w = setFields fs k w := by
  induction fs with
  | nil => simp [setFields]
  | cons p rest ih =>
      obtain ⟨a, u⟩ := p
      by_cases h : a = k <;> simp [setFields, h, ih]

/-- A key already present in the field list. -/
def containsKey (fs : List (String × JVal)) (k : String) : Bool :=
  fs.any (fun p => p.1 == k)

theorem containsKey_setFields_self (fs : List (String × JVal)) (k : String) (v : JVal) :
    containsKey (setFields fs k v) k = true := by
  induction fs with
  | nil => simp [setFields, containsKey]
  | cons p rest ih =>
      obtain ⟨a, u⟩ := p
      by_cases h : a = k <;> simp_all [setFields, containsKey]

theorem setFields_comm_of_mem (fs : List (String × JVal)) (k k' : String) (v w : JVal)
    (hne : k ≠ k') (hmem : containsKey fs k = true) :
    setFields (setFields fs k v) k' w = setFields (setFields fs k' w) k v := by
  induction fs with
  | nil => simp [containsKey] at hmem
  | cons p rest ih =>
      obtain ⟨a, u⟩ := p
      by_cases ha : a = k
      · subst ha
        have ha' : a ≠ k' := hne
        simp [setFields, ha', if_pos rfl]
      · by_cases ha' : a = k'
        · subst ha'
          simp only [containsKey, List.any_cons, Bool.or_eq_true, beq_iff_eq] at hmem
          rcases hmem with hmem | hmem
          · exact absurd hmem ha
          · simp [setFields, ha, if_pos rfl]
        · simp only [containsKey, List.any_cons, Bool.or_eq_true, beq_iff_eq] at hmem
          rcases hmem with hmem | hmem
          · exact absurd hmem ha
          · simp [setFields, ha, ha', ih hmem]

theorem setFields_absent (fs : List (String × JVal)) (k : String) (v : JVal)
    (h : ∀ p ∈ fs, p.1 ≠ k) : setFields fs k v = fs ++ [(k, v)] := by
  induction fs with
  | nil => simp [setFields]
  | cons p rest ih =>
      obtain ⟨a, u⟩ := p
      have ha : a ≠ k := h (a, u) (by simp)
      simp only [setFields, ha, if_false, List.cons_append, List.cons.injEq, true_and]
      exact ih (fun q hq => h q (by simp [hq]))

theorem map_setFields (fs : List (String × JVal)) (k : String) (v : JVal)
    (g : JVal → JVal) :
    (setFields fs k v).map (fun kv => (kv.1, g kv.2)) =
      setFields (fs.map (fun kv => (kv.1, g kv.2))) k (g v) := by
  induction fs with
  | nil => simp [setFields]
  | cons p rest ih =>
      obtain ⟨a, u⟩ := p
      by_cases h : a = k <;> simp [setFields, h, ih]

theorem getField_spreadSet_self (x : JVal) (k : String) (v : JVal) :
    getField (spreadSet x k v) k = v := by
  simp [spreadSet, getField, findField_setFields_self]

theorem getField_spreadSet_ne (x : JVal) (k f : String) (v : JVal) (h : f ≠ k) :
    getField (spreadSet x k v) f = findField (fieldsOf x) f := by
  simp [spreadSet, getField, findField_setFields_ne _ _ _ _ h]

/-! ## Normalisation lemmas -/

/-- `undefined` recogniser. -/
def isUndefB : JVal → Bool
  | .undefined => true
  | _ => false

theorem normList_eq_map (xs : List JVal) : normList xs = xs.map norm := by
  induction xs with
  | nil => rfl
  | cons x xs ih => simp [normList, ih]

theorem normFields_of_noUndef (fs : List (String × JVal))
    (h : fs.all (fun kv => !(isUndefB kv.2))) :
    normFields fs = fs.map (fun kv => (kv.1, norm kv.2)) := by
  induction fs with
  | nil => rfl
  | cons p rest ih =>
      obtain ⟨a, u⟩ := p
      simp only [List.all_cons, Bool.and_eq_true] at h
      obtain ⟨h1, h2⟩ := h
      have hr := ih h2
      cases u <;> simp_all [normFields, isUndefB]

mutual
theorem norm_of_isPure : ∀ v, isPure v = true → norm v = v
  | .null, _ => rfl
  | .jbool _, _ => rfl
  | .num _, _ => rfl
  | .str _, _ => rfl
  | .arr xs, h => by
      simp only [isPure] at h
      simp [norm, normList_of_isPure xs h]
  | .obj fs, h => by
      simp only [isPure] at h
      simp [norm, normFields_of_isPure fs h]

theorem normList_of_isPure : ∀ xs, isPureList xs = true → normList xs = xs
  | [], _ => rfl
  | x :: xs, h => by
      simp only [isPureList, Bool.and_eq_true] at h
      simp [normList, norm_of_isPure x h.1, normList_of_isPure xs h.2]

theorem normFields_of_isPure : ∀ fs, isPureFields fs = true → normFields fs = fs
  | [], _ => rfl
  | (k, v) :: rest, h => by
      simp only [isPureFields, Bool.and_eq_true] at h
      have hv : v ≠ .undefined := by
        intro hv
        rw [hv] at h
        simp [isPure] at h
      cases v <;> simp_all [normFields, norm_of_isPure, normFields_of_isPure rest h.2]
end

theorem isPure_not_undef (v : JVal) (h : isPure v = true) : isUndefB v = false := by
  cases v <;> simp_all [isPure, isUndefB]

/-! ## Date lemmas -/

theorem all_replicate_D (n : Nat) : (List.replicate n 'D').all (· == 'D') = true := by
  simp [List.all_eq_true, List.mem_replicate]

theorem dateDecode_dateEncode (t : Int) : dateDecode (dateEncode t) = some t := by
  cases t with
  | ofNat n =>
      show decodeChars (String.mk (List.replicate (n + 1) 'D')).data = some (Int.ofNat n)
      rw [show (String.mk (List.replicate (n + 1) 'D')).data = 'D' :: List.replicate n 'D' from
        by simp [List.replicate_succ]]
      rw [decodeChars]
      simp [all_replicate_D]
  | negSucc n =>
      show decodeChars (String.mk ('N' :: List.replicate (n + 1) 'D')).data =
        some (Int.negSucc n)
      rw [show (String.mk ('N' :: List.replicate (n + 1) 'D')).data =
        'N' :: List.replicate (n + 1) 'D' from rfl]
      rw [decodeChars]
      simp [all_replicate_D]

theorem newDate_dateEncode (t : Int) : newDate (.str (dateEncode t)) = .date (some t) := by
  simp [newDate, dateDecode_dateEncode]

theorem newDate_isDate (v : JVal) : ∃ d, newDate v = .date d := by
  cases v <;> simp [newDate]

/-! ## Normal-form stored rule-set entries

Whatever reaches the rule-set key is written as
`JSON.stringify(existing-remapped ++ [\x7b...incoming, updatedAt: date\x7d])`.
Such entries are stable: parsing the stored text and re-applying the date
conversion of `getRuleSets` gives back the same in-memory object. -/

/-- Stable under a store round trip: re-reading the normalised form and
re-converting the date fields restores the object, and the stored form is
not nullish (so the read cannot throw). -/
def NFGood (e : JVal) : Prop :=
  remapDates (norm e) = e ∧ jIsNullish (norm e) = false

/-- A `Date` object holding a real timestamp (not an Invalid Date).  Only
such dates survive a store round trip: an Invalid Date stringifies to
`null`, which `new Date(null)` reads back as the epoch. -/
def isValidDate : JVal → Bool
  | .date (some _) => true
  | _ => false

theorem isValidDate_elim (v : JVal) (h : isValidDate v = true) :
    ∃ t, v = .date (some t) := by
  cases v with
  | date d => cases d with
      | none => simp [isValidDate] at h
      | some t => exact ⟨t, rfl⟩
  | null => simp [isValidDate] at h
  | undefined => simp [isValidDate] at h
  | jbool b => simp [isValidDate] at h
  | num n => simp [isValidDate] at h
  | str s => simp [isValidDate] at h
  | arr xs => simp [isValidDate] at h
  | obj fs => simp [isValidDate] at h

/-- The common shape of every round-trip-stable value at the rule-set key:
pure fields with the two date fields, holding valid dates, set on top. -/
def NFShape (e : JVal) : Prop :=
  ∃ fs, ∃ t₁ t₂ : Int, isPureFields fs = true ∧
    e = .obj (setFields (setFields fs "createdAt" (.date (some t₁)))
      "updatedAt" (.date (some t₂)))

theorem all_noUndef_setFields (fs : List (String × JVal)) (k : String) (v : JVal)
    (h : fs.all (fun kv => !(isUndefB kv.2)) = true) (hv : isUndefB v = false) :
    (setFields fs k v).all (fun kv => !(isUndefB kv.2)) = true := by
  induction fs with
  | nil => simp [setFields, hv]
  | cons p rest ih =>
      obtain ⟨a, u⟩ := p
      simp only [List.all_cons, Bool.and_eq_true] at h
      by_cases ha : a = k
      · simp [setFields, ha, hv, h.2]
      · simp [setFields, ha, h.1, ih h.2]

theorem isPureFields_noUndef (fs : List (String × JVal)) (h : isPureFields fs = true) :
    fs.all (fun kv => !(isUndefB kv.2)) = true := by
  induction fs with
  | nil => simp
  | cons p rest ih =>
      obtain ⟨a, u⟩ := p
      simp only [isPureFields, Bool.and_eq_true] at h
      simp [isPure_not_undef u h.1, ih h.2]

theorem map_norm_of_isPureFields (fs : List (String × JVal)) (h : isPureFields fs = true) :
    fs.map (fun kv => (kv.1, norm kv.2)) = fs := by
  rw [← normFields_of_noUndef fs (isPureFields_noUndef fs h)]
  exact normFields_of_isPure fs h

theorem NFShape.nfgood {e : JVal} (h : NFShape e) : NFGood e := by
  obtain ⟨fs, t₁, t₂, hpure, rfl⟩ := h
  have hcu : ("createdAt" : String) ≠ "updatedAt" := by decide
  set G0 := setFields (setFields fs "createdAt" (.date (some t₁)))
    "updatedAt" (.date (some t₂)) with hG0
  have hnoU : G0.all (fun kv => !(isUndefB kv.2)) = true := by
    apply all_noUndef_setFields
    · exact all_noUndef_setFields _ _ _ (isPureFields_noUndef fs hpure) rfl
    · rfl
  have hnorm : norm (.obj G0) =
      .obj (setFields (setFields fs "createdAt" (.str (dateEncode t₁)))
        "updatedAt" (.str (dateEncode t₂))) := by
    have h0 : norm (.obj G0) = .obj (normFields G0) := rfl
    rw [h0, normFields_of_noUndef G0 hnoU, hG0, map_setFields, map_setFields,
      map_norm_of_isPureFields fs hpure]
    rfl
  constructor
  · rw [hnorm, remapDates]
    have hget1 : getField (.obj (setFields (setFields fs "createdAt" (.str (dateEncode t₁)))
        "updatedAt" (.str (dateEncode t₂)))) "createdAt" = .str (dateEncode t₁) := by
      rw [getField, findField_setFields_ne _ _ _ _ hcu, findField_setFields_self]
    have hget2 : getField (.obj (setFields (setFields fs "createdAt" (.str (dateEncode t₁)))
        "updatedAt" (.str (dateEncode t₂)))) "updatedAt" = .str (dateEncode t₂) := by
      rw [getField, findField_setFields_self]
    rw [hget1, hget2, newDate_dateEncode, newDate_dateEncode, fieldsOf]
    have hcomm : setFields (setFields (setFields (setFields fs "createdAt"
          (.str (dateEncode t₁))) "updatedAt" (.str (dateEncode t₂)))
          "createdAt" (.date (some t₁))) "updatedAt" (.date (some t₂)) = G0 := by
      rw [← setFields_comm_of_mem _ _ _ _ _ hcu (containsKey_setFields_self fs _ _),
        setFields_setFields_self, setFields_setFields_self]
    rw [hcomm]
  · rw [hnorm]
    rfl

theorem isPureFields_fieldsOf (x : JVal) (h : isPure x = true) :
    isPureFields (fieldsOf x) = true := by
  cases x <;> simp_all [fieldsOf, isPure, isPureFields]

/-- After the date conversion, `updatedAt` holds exactly `new Date` of the
decoded field. -/
theorem getField_remapDates_updatedAt (x : JVal) :
    getField (remapDates x) "updatedAt" = newDate (getField x "updatedAt") := by
  rw [remapDates, getField, findField_setFields_self]

/-- After the date conversion, `createdAt` holds exactly `new Date` of the
decoded field. -/
theorem getField_remapDates_createdAt (x : JVal) :
    getField (remapDates x) "createdAt" = newDate (getField x "createdAt") := by
  rw [remapDates, getField,
    findField_setFields_ne _ _ _ _ (by decide : ("createdAt" : String) ≠ "updatedAt"),
    findField_setFields_self]

/-- The date conversion of a pure value whose two date fields parse to valid
dates is in normal form.  (For an unparseable or absent field the converted
object carries an Invalid Date, which does not survive a store round trip:
it stringifies to `null` and re-reads as the epoch.) -/
theorem NFShape_remapDates (x : JVal) (h : isPure x = true)
    (hc : isValidDate (newDate (getField x "createdAt")) = true)
    (hu : isValidDate (newDate (getField x "updatedAt")) = true) :
    NFShape (remapDates x) := by
  obtain ⟨t₁, h₁⟩ := isValidDate_elim _ hc
  obtain ⟨t₂, h₂⟩ := isValidDate_elim _ hu
  exact ⟨fieldsOf x, t₁, t₂, isPureFields_fieldsOf x h, by rw [remapDates, h₁, h₂]⟩

theorem NFShape_spreadSet_updatedAt {e : JVal} (h : NFShape e) (c : Int) :
    NFShape (spreadSet e "updatedAt" (.date (some c))) := by
  obtain ⟨fs, t₁, t₂, hpure, rfl⟩ := h
  exact ⟨fs, t₁, c, hpure, by
    rw [spreadSet, fieldsOf, setFields_setFields_self]⟩

theorem getRuleSets_mk (s : Store) (es : List JVal)
    (hcell : s.ruleSets = some (.txt (norm (.arr es))))
    (hnf : ∀ e ∈ es, NFGood e) :
    getRuleSets s = es := by
  have hmap : norm (.arr es) = .arr (es.map norm) := by rw [norm, normList_eq_map]
  have hguard : (es.map norm).any jIsNullish = false := by
    rw [List.any_map, List.any_eq_false]
    intro e he
    simp only [Function.comp_apply]
    rw [(hnf e he).2]
    simp
  rw [getRuleSets, hcell, hmap]
  simp only [hguard, Bool.false_eq_true, if_false, List.map_map]
  calc es.map (remapDates ∘ norm) = es.map id := by
        apply List.map_congr_left
        intro e he
        exact (hnf e he).1
    _ = es := List.map_id es

theorem getField_eq_findField (x : JVal) (f : String) :
    getField x f = findField (fieldsOf x) f := by
  cases x <;> simp [getField, fieldsOf, findField]

theorem getField_remapDates_ne (x : JVal) (f : String)
    (h1 : f ≠ "createdAt") (h2 : f ≠ "updatedAt") :
    getField (remapDates x) f = getField x f := by
  rw [remapDates, getField, findField_setFields_ne _ _ _ _ h2,
    findField_setFields_ne _ _ _ _ h1, ← getField_eq_findField]

/-- Re-reading a freshly serialised element list decodes each element
through `JSON.parse` followed by the date conversion of `getRuleSets`
(provided no element serialises to `null`, which would make the conversion
throw). -/
theorem getRuleSets_mk_map (s : Store) (es : List JVal)
    (hcell : s.ruleSets = some (.txt (norm (.arr es))))
    (hnn : ∀ e ∈ es, jIsNullish (norm e) = false) :
    getRuleSets s = es.map (fun e => remapDates (norm e)) := by
  have hmap : norm (.arr es) = .arr (es.map norm) := by rw [norm, normList_eq_map]
  have hguard : (es.map norm).any jIsNullish = false := by
    rw [List.any_map, List.any_eq_false]
    intro e he
    simp only [Function.comp_apply]
    rw [hnn e he]
    simp
  rw [getRuleSets, hcell, hmap]
  simp only [hguard, Bool.false_eq_true, if_false, List.map_map]
  rfl

/-- A converted object serialises to an object, never to `null`. -/
theorem norm_remapDates_not_nullish (x : JVal) :
    jIsNullish (norm (remapDates x)) = false := rfl

theorem findField_isPure_or_undef (fs : List (String × JVal)) (f : String)
    (h : isPureFields fs = true) :
    findField fs f = .undefined ∨ isPure (findField fs f) = true := by
  induction fs with
  | nil => exact Or.inl rfl
  | cons p rest ih =>
      obtain ⟨a, v⟩ := p
      simp only [isPureFields, Bool.and_eq_true] at h
      by_cases ha : a = f
      · right
        rw [findField, if_pos ha]
        exact h.1
      · rw [findField, if_neg ha]
        exact ih h.2

/-- Field lookup through the stringify step: a present field is normalised,
an absent one stays absent (no field value is `undefined`, so presence is
preserved). -/
theorem findField_mapNorm (fs : List (String × JVal)) (f : String)
    (h : fs.all (fun kv => !(isUndefB kv.2)) = true) :
    (findField fs f = .undefined ∧
      findField (fs.map (fun kv => (kv.1, norm kv.2))) f = .undefined) ∨
    (findField fs f ≠ .undefined ∧
      findField (fs.map (fun kv => (kv.1, norm kv.2))) f = norm (findField fs f)) := by
  induction fs with
  | nil => exact Or.inl ⟨rfl, rfl⟩
  | cons p rest ih =>
      obtain ⟨a, v⟩ := p
      simp only [List.all_cons, Bool.and_eq_true] at h
      by_cases ha : a = f
      · right
        constructor
        · rw [findField, if_pos ha]
          intro hv
          rw [hv] at h
          simp [isUndefB] at h
        · simp only [List.map_cons, findField, if_pos ha]
      · simp only [List.map_cons, findField, if_neg ha]
        exact ih h.2

/-- Reading any non-date field after serialising a converted pure object
and parsing the text back gives the original field: `JSON.stringify` is the
identity on the pure field values and only the two date slots are
rewritten. -/
theorem getField_norm_remapDates (x : JVal) (hx : isPure x = true) (f : String)
    (h1 : f ≠ "createdAt") (h2 : f ≠ "updatedAt") :
    getField (norm (remapDates x)) f = getField x f := by
  set G := setFields (setFields (fieldsOf x) "createdAt" (newDate (getField x "createdAt")))
    "updatedAt" (newDate (getField x "updatedAt")) with hG
  have hnoU : G.all (fun kv => !(isUndefB kv.2)) = true := by
    rw [hG]
    apply all_noUndef_setFields
    · apply all_noUndef_setFields
      · exact isPureFields_noUndef _ (isPureFields_fieldsOf x hx)
      · obtain ⟨d, hd⟩ := newDate_isDate (getField x "createdAt")
        rw [hd]
        rfl
    · obtain ⟨d, hd⟩ := newDate_isDate (getField x "updatedAt")
      rw [hd]
      rfl
  have hnorm : norm (remapDates x) = .obj (G.map (fun kv => (kv.1, norm kv.2))) := by
    have h0 : norm (remapDates x) = .obj (normFields G) := by
      rw [remapDates, ← hG]
      rfl
    rw [h0, normFields_of_noUndef G hnoU]
  have hGf : findField G f = findField (fieldsOf x) f := by
    rw [hG, findField_setFields_ne _ _ _ _ h2, findField_setFields_ne _ _ _ _ h1]
  rw [hnorm, getField]
  rcases findField_mapNorm G f hnoU with ⟨ha, hb⟩ | ⟨ha, hb⟩
  · rw [hb, getField_eq_findField]
    rw [hGf] at ha
    exact ha.symm
  · rw [hb, hGf, getField_eq_findField]
    rw [hGf] at ha
    rcases findField_isPure_or_undef (fieldsOf x) f (isPureFields_fieldsOf x hx) with hu | hp
    · exact absurd hu ha
    · exact norm_of_isPure _ hp

/-- The fields the repair filter reads, after the date conversion. -/
theorem repairKeep_remapDates_fields (y : JVal) :
    repairKeep (remapDates y) = (truthy (getField y "id") && truthy (getField y "name")
      && isArr (getField y "rules")) := by
  rw [repairKeep, getField_remapDates_ne _ _ (by decide) (by decide),
    getField_remapDates_ne _ _ (by decide) (by decide),
    getField_remapDates_ne _ _ (by decide) (by decide)]

/-- The repair filter reads only `id`, `name` and `rules`, none of which a
serialise–parse–reconvert round trip changes on a converted pure object:
its verdict is stable under re-decoding, whatever the date fields hold. -/
theorem repairKeep_redecoded (x : JVal) (hx : isPure x = true) :
    repairKeep (remapDates (norm (remapDates x))) = repairKeep (remapDates x) := by
  rw [repairKeep_remapDates_fields, repairKeep_remapDates_fields,
    getField_norm_remapDates x hx "id" (by decide) (by decide),
    getField_norm_remapDates x hx "name" (by decide) (by decide),
    getField_norm_remapDates x hx "rules" (by decide) (by decide)]

theorem getRuleSets_ext (s t : Store) (h : s.ruleSets = t.ruleSets) :
    getRuleSets s = getRuleSets t := by
  rw [getRuleSets, getRuleSets, h]

theorem getRuleSets_mk_ext (b c : Option Cell) (s : Store) :
    getRuleSets (⟨s.ruleSets, b, c⟩ : Store) = getRuleSets s :=
  getRuleSets_ext _ _ rfl

theorem isPureList_mem (xs : List JVal) (h : isPureList xs = true) (x : JVal) (hx : x ∈ xs) :
    isPure x = true := by
  induction xs with
  | nil => simp at hx
  | cons y ys ih =>
      simp only [isPureList, Bool.and_eq_true] at h
      rcases List.mem_cons.mp hx with rfl | hx
      · exact h.1
      · exact ih h.2 hx

/-- Every element `getRuleSets` returns on a well-formed store is the date
conversion of some pure decoded value. -/
theorem WF_getRuleSets_elem (s : Store) (h : Store.WF s = true) :
    ∀ e ∈ getRuleSets s, ∃ x, isPure x = true ∧ e = remapDates x := by
  intro e he
  rw [getRuleSets] at he
  cases hc : s.ruleSets with
  | none => rw [hc] at he; simp at he
  | some c =>
      cases c with
      | bad => rw [hc] at he; simp at he
      | txt v =>
          cases v with
          | arr xs =>
              rw [hc] at he
              by_cases hg : xs.any jIsNullish = true
              · simp [hg] at he
              · rw [Bool.not_eq_true] at hg
                simp only [hg, Bool.false_eq_true, if_false] at he
                obtain ⟨x, hx, rfl⟩ := List.mem_map.mp he
                refine ⟨x, ?_, rfl⟩
                have hp : cellPure s.ruleSets = true := by
                  have := h
                  rw [Store.WF, Bool.and_eq_true, Bool.and_eq_true] at this
                  exact this.1.1
                rw [hc, cellPure] at hp
                exact isPureList_mem xs (by simpa [isPure] using hp) x hx
          | null => rw [hc] at he; simp at he
          | undefined => rw [hc] at he; simp at he
          | jbool b => rw [hc] at he; simp at he
          | num n => rw [hc] at he; simp at he
          | str t => rw [hc] at he; simp at he
          | date d => rw [hc] at he; simp at he
          | obj fs => rw [hc] at he; simp at he

/-- On a well-formed store, a returned RuleSet whose two converted date
fields are valid dates is in normal form. -/
theorem WF_getRuleSets_NFShape (s : Store) (h : Store.WF s = true)
    (e : JVal) (he : e ∈ getRuleSets s)
    (hc : isValidDate (getField e "createdAt") = true)
    (hu : isValidDate (getField e "updatedAt") = true) : NFShape e := by
  obtain ⟨x, hx, rfl⟩ := WF_getRuleSets_elem s h e he
  rw [getField_remapDates_createdAt] at hc
  rw [getField_remapDates_updatedAt] at hu
  exact NFShape_remapDates x hx hc hu

/-! ## Claim C1: selecting a RuleSet derives a fresh checklist -/

/-- C1: for every RuleSet with a non-empty rules sequence, the reducer
action `SET_RULE_SET` yields a checklist of the same length, in the same
order, where item `i` carries rule `i`'s id, text and category and is
unchecked (stated positionally through `getElem?`, which also forces equal
lengths). -/
theorem setRuleSet_derives_fresh_checklist (state : AppState) (R : RuleSet)
    (_h : R.rules ≠ []) :
    (appReducer state (.SET_RULE_SET R)).checklist.length = R.rules.length ∧
    ∀ i : Nat, (appReducer state (.SET_RULE_SET R)).checklist[i]? =
      (R.rules[i]?).map (fun rule => ChecklistItem.mk rule.id rule.text false (some rule.category)) := by
  refine ⟨by simp [appReducer], fun i => ?_⟩
  simp [appReducer]

theorem setRuleSet_derives_fresh_checklist_witness :
    (RuleSet.mk "rs1" "n" "d" "v" [Rule.mk "r1" "Check A" "X" 1 none] 0 0).rules ≠ [] ∧
    ((appReducer (AppState.mk none [] (ReportData.mk "" [] "" "medium" "" none) [] "")
        (.SET_RULE_SET (RuleSet.mk "rs1" "n" "d" "v" [Rule.mk "r1" "Check A" "X" 1 none] 0 0))).checklist.length =
      [Rule.mk "r1" "Check A" "X" 1 none].length ∧
    ∀ i : Nat, (appReducer (AppState.mk none [] (ReportData.mk "" [] "" "medium" "" none) [] "")
        (.SET_RULE_SET (RuleSet.mk "rs1" "n" "d" "v" [Rule.mk "r1" "Check A" "X" 1 none] 0 0))).checklist[i]? =
      (((RuleSet.mk "rs1" "n" "d" "v" [Rule.mk "r1" "Check A" "X" 1 none] 0 0)).rules[i]?).map
        (fun rule => ChecklistItem.mk rule.id rule.text false (some rule.category))) :=
  ⟨by decide, setRuleSet_derives_fresh_checklist _ _ (by decide)⟩

/-! ## Claim C10: the GENERATE_MARKDOWN action is a frame -/

/-- C10: for every state and payload, `GENERATE_MARKDOWN` leaves
`selectedRuleSet`, `checklist`, `reportData` and `availableRuleSets`
unchanged, setting only `generatedMarkdown`. -/
theorem generateMarkdown_action_frame (state : AppState) (payload : String) :
    (appReducer state (.GENERATE_MARKDOWN payload)).selectedRuleSet = state.selectedRuleSet ∧
    (appReducer state (.GENERATE_MARKDOWN payload)).checklist = state.checklist ∧
    (appReducer state (.GENERATE_MARKDOWN payload)).reportData = state.reportData ∧
    (appReducer state (.GENERATE_MARKDOWN payload)).availableRuleSets = state.availableRuleSets ∧
    (appReducer state (.GENERATE_MARKDOWN payload)).generatedMarkdown = payload :=
  ⟨rfl, rfl, rfl, rfl, rfl⟩

/-! ## Claim C4: corrupted form-data text is invisible to validation and
repair (the getters swallow the parse error) -/

/-- A store whose form-data key holds text `JSON.parse` rejects. -/
def corruptFormDataStore : Store := ⟨none, some .bad, none⟩

/-- C4 (failing input): with corrupted form-data text, `validateStoredData`
reports `isValid: true` with no errors — not `false` as specified — and
`repairData` neither removes the key nor reports an action: `getFormData`
catches the parse error internally and returns `null`, so the corruption is
never seen.  The unreachable catch branch in `repairData`
(localStorage.ts:471-475) was written to remove exactly this key. -/
theorem corruptFormData_invisible :
    validateStoredData corruptFormDataStore = (true, []) ∧
    repairData corruptFormDataStore = ((false, []), corruptFormDataStore) :=
  ⟨rfl, rfl⟩

/-! ## Claim C5: what repairData actually drops -/

/-- A store whose checklist decodes to one item with a non-boolean
`checked` field. -/
def invalidCheckedStore : Store :=
  ⟨none, none, some (.txt (.arr [.obj [("id", .str "c1"), ("text", .str "t"),
    ("checked", .num 1)]]))⟩

/-- C5 (counterexample to the claim as stated): the checklist family
decodes, its single element fails validation (`checked` is a number), yet
`repairData` does not drop the offending element — it returns no actions
and leaves the store, including the invalid item, unchanged. -/
theorem repairData_keeps_invalid_checklist_item :
    (validateStoredData invalidCheckedStore).1 = false ∧
    repairData invalidCheckedStore = ((false, []), invalidCheckedStore) :=
  ⟨rfl, rfl⟩

/-! ## Claim C6: importData does not validate RuleSets -/

/-- A valid RuleSet blob with one rule. -/
def importValidRS : JVal :=
  .obj [("id", .str "a"), ("name", .str "Valid"), ("description", .str "d"),
    ("version", .str "1"), ("rules", .arr [.obj [("id", .str "r1"), ("text", .str "T"),
      ("category", .str "X"), ("priority", .num 1)]]),
    ("createdAt", .str (dateEncode 3)), ("updatedAt", .str (dateEncode 3))]

/-- A RuleSet blob with an empty rules array (failing the at-least-one-rule
validation of the spec and of `RuleSetManager.validateRuleSet`). -/
def importEmptyRulesRS : JVal :=
  .obj [("id", .str "b"), ("name", .str "Empty"), ("description", .str "d"),
    ("version", .str "1"), ("rules", .arr []),
    ("createdAt", .str (dateEncode 4)), ("updatedAt", .str (dateEncode 4))]

/-- The two-RuleSet bundle of the scenario. -/
def twoRuleSetBundle : Cell :=
  .txt (.obj [("version", .str "1.0.0"), ("ruleSets", .arr [importValidRS, importEmptyRulesRS])])

/-- C6 (counterexample to the claim as stated): importing a bundle with two
RuleSets, one having an empty rules array, returns `success: true` with no
errors — not `success: false` with an error naming the invalid set — and
both RuleSets end up in the store: `importData` never validates a RuleSet,
and `saveRuleSet` saves unconditionally. -/
theorem importData_empty_rules_counterexample :
    (importData ⟨none, none, none⟩ twoRuleSetBundle 9).1 = (true, []) ∧
    ((getRuleSets (importData ⟨none, none, none⟩ twoRuleSetBundle 9).2).map
      (fun x => getField x "id")) = [.str "a", .str "b"] :=
  ⟨rfl, rfl⟩

/-! ## Claim C3: repairData is idempotent -/

/-- The rule-set repair fires iff the truthiness filter drops an element. -/
def ruleSetsRepairNeeded (s : Store) : Bool :=
  ((getRuleSets s).filter repairKeep).length != (getRuleSets s).length

/-- The form-data repair fires iff the decoded value is truthy and not of
object type. -/
def formDataRepairNeeded (s : Store) : Bool :=
  match getFormDataJ s with
  | some formData => truthy formData && jtypeof formData != "object"
  | none => false

/-- The checklist repair fires iff the decoded value is truthy and not an
array. -/
def checklistRepairNeeded (s : Store) : Bool :=
  match getChecklistState s with
  | some checklistState => truthy checklistState && !(isArr checklistState)
  | none => false

theorem getFormDataJ_ext (s t : Store) (h : s.formData = t.formData) :
    getFormDataJ s = getFormDataJ t := by
  rw [getFormDataJ, getFormDataJ, h]

theorem getChecklistState_ext (s t : Store) (h : s.checklist = t.checklist) :
    getChecklistState s = getChecklistState t := by
  rw [getChecklistState, getChecklistState, h]

theorem formDataRepairNeeded_ext (s t : Store) (h : s.formData = t.formData) :
    formDataRepairNeeded s = formDataRepairNeeded t := by
  rw [formDataRepairNeeded, formDataRepairNeeded, getFormDataJ_ext s t h]

theorem checklistRepairNeeded_ext (s t : Store) (h : s.checklist = t.checklist) :
    checklistRepairNeeded s = checklistRepairNeeded t := by
  rw [checklistRepairNeeded, checklistRepairNeeded, getChecklistState_ext s t h]

theorem ruleSetsRepairNeeded_ext (s t : Store) (h : s.ruleSets = t.ruleSets) :
    ruleSetsRepairNeeded s = ruleSetsRepairNeeded t := by
  rw [ruleSetsRepairNeeded, ruleSetsRepairNeeded, getRuleSets_ext s t h]

/-- The messages of the three repair steps. -/
def ruleSetsRepairMsg (s : Store) : String :=
  toString ((getRuleSets s).length - ((getRuleSets s).filter repairKeep).length) ++
    "個の無効なルールセットを削除しました"

theorem formStep_char (u : Store) :
    (match getFormDataJ u with
     | some formData =>
         if truthy formData && jtypeof formData != "object" then
           ((["破損したフォームデータを削除しました"] : List String), { u with formData := none })
         else ([], u)
     | none => ([], u)) =
    (if formDataRepairNeeded u then
      ((["破損したフォームデータを削除しました"] : List String), { u with formData := none })
     else ([], u)) := by
  rw [formDataRepairNeeded]
  cases getFormDataJ u with
  | none => simp
  | some fd => by_cases h : (truthy fd && jtypeof fd != "object") = true <;> simp [h]

theorem checklistStep_char (u : Store) :
    (match getChecklistState u with
     | some checklistState =>
         if truthy checklistState && !(isArr checklistState) then
           ((["破損したチェックリスト状態を削除しました"] : List String), { u with checklist := none })
         else ([], u)
     | none => ([], u)) =
    (if checklistRepairNeeded u then
      ((["破損したチェックリスト状態を削除しました"] : List String), { u with checklist := none })
     else ([], u)) := by
  rw [checklistRepairNeeded]
  cases getChecklistState u with
  | none => simp
  | some cs => by_cases h : (truthy cs && !(isArr cs)) = true <;> simp [h]

theorem rsrn_mk (b c : Option Cell) (s : Store) :
    ruleSetsRepairNeeded ⟨s.ruleSets, b, c⟩ = ruleSetsRepairNeeded s :=
  ruleSetsRepairNeeded_ext _ _ rfl

theorem fdrn_mk (a c : Option Cell) (s : Store) :
    formDataRepairNeeded ⟨a, s.formData, c⟩ = formDataRepairNeeded s :=
  formDataRepairNeeded_ext _ _ rfl

theorem clrn_mk (a b : Option Cell) (s : Store) :
    checklistRepairNeeded ⟨a, b, s.checklist⟩ = checklistRepairNeeded s :=
  checklistRepairNeeded_ext _ _ rfl

/-- `repairData` on an invalid store, in closed form. -/
theorem repairData_invalid (s : Store) (hv : (validateStoredData s).1 = false) :
    repairData s =
      (let actions :=
        (if ruleSetsRepairNeeded s then [ruleSetsRepairMsg s] else []) ++
        (if formDataRepairNeeded s then ["破損したフォームデータを削除しました"] else []) ++
        (if checklistRepairNeeded s then ["破損したチェックリスト状態を削除しました"] else [])
       ((!actions.isEmpty, actions),
        { ruleSets := if ruleSetsRepairNeeded s then
            some (.txt (norm (.arr ((getRuleSets s).filter repairKeep)))) else s.ruleSets
          formData := if formDataRepairNeeded s then none else s.formData
          checklist := if checklistRepairNeeded s then none else s.checklist })) := by
  rw [repairData]
  simp only [hv, Bool.false_eq_true, if_false]
  rw [formStep_char, checklistStep_char]
  cases hC1 : ruleSetsRepairNeeded s with
  | true =>
      have hC1' : (((getRuleSets s).filter repairKeep).length != (getRuleSets s).length) = true := hC1
      simp only [hC1', if_true, hC1, fdrn_mk]
      cases hC2 : formDataRepairNeeded s with
      | true =>
          simp only [hC2, if_true, clrn_mk]
          cases hC3 : checklistRepairNeeded s with
          | true => simp [hC3, ruleSetsRepairMsg]
          | false => simp [hC3, ruleSetsRepairMsg]
      | false =>
          simp only [hC2, Bool.false_eq_true, if_false, clrn_mk]
          cases hC3 : checklistRepairNeeded s with
          | true => simp [hC3, ruleSetsRepairMsg]
          | false => simp [hC3, ruleSetsRepairMsg]
  | false =>
      have hC1' : (((getRuleSets s).filter repairKeep).length != (getRuleSets s).length) = false := hC1
      simp only [hC1', Bool.false_eq_true, if_false, hC1, fdrn_mk]
      cases hC2 : formDataRepairNeeded s with
      | true =>
          simp only [hC2, if_true, clrn_mk]
          cases hC3 : checklistRepairNeeded s with
          | true => simp [hC3]
          | false => simp [hC3]
      | false =>
          simp only [hC2, Bool.false_eq_true, if_false, clrn_mk]
          cases hC3 : checklistRepairNeeded s with
          | true => simp [hC3]
          | false => simp [hC3]

theorem repairData_of_valid (s : Store) (hv : (validateStoredData s).1 = true) :
    repairData s = ((false, []), s) := by
  rw [repairData]
  simp [hv]

theorem getFormDataJ_none (s : Store) (h : s.formData = none) : getFormDataJ s = none := by
  rw [getFormDataJ, h]

theorem getChecklistState_none (s : Store) (h : s.checklist = none) :
    getChecklistState s = none := by
  rw [getChecklistState, h]

theorem repairData_no_repairs (s : Store)
    (h1 : ruleSetsRepairNeeded s = false) (h2 : formDataRepairNeeded s = false)
    (h3 : checklistRepairNeeded s = false) :
    (repairData s).1 = (false, []) := by
  by_cases hv : (validateStoredData s).1 = true
  · rw [repairData_of_valid s hv]
  · rw [repairData_invalid s (Bool.not_eq_true _ ▸ hv)]
    simp [h1, h2, h3]

theorem ruleSetsRepairNeeded_filtered (s : Store) (hWF : Store.WF s = true)
    (b c : Option Cell) :
    ruleSetsRepairNeeded ⟨some (.txt (norm (.arr ((getRuleSets s).filter repairKeep)))), b, c⟩ =
      false := by
  have helem := WF_getRuleSets_elem s hWF
  have hnn : ∀ e ∈ (getRuleSets s).filter repairKeep, jIsNullish (norm e) = false := by
    intro e he
    obtain ⟨x, _, rfl⟩ := helem e (List.mem_of_mem_filter he)
    exact norm_remapDates_not_nullish x
  have hg : getRuleSets ⟨some (.txt (norm (.arr ((getRuleSets s).filter repairKeep)))), b, c⟩ =
      ((getRuleSets s).filter repairKeep).map (fun e => remapDates (norm e)) :=
    getRuleSets_mk_map _ _ rfl hnn
  have hkeep : ∀ z ∈ ((getRuleSets s).filter repairKeep).map (fun e => remapDates (norm e)),
      repairKeep z = true := by
    intro z hz
    obtain ⟨e, he, rfl⟩ := List.mem_map.mp hz
    obtain ⟨x, hx, rfl⟩ := helem e (List.mem_of_mem_filter he)
    rw [repairKeep_redecoded x hx]
    exact List.of_mem_filter he
  rw [ruleSetsRepairNeeded, hg, List.filter_eq_self.mpr hkeep]
  simp

/-- C3: running `repairData` twice in a row with no intervening mutation
makes the second call report `\x7brepaired: false, actions: []\x7d`, for
every well-formed store, repaired or not. -/
theorem repairData_idempotent (s : Store) (hWF : Store.WF s = true) :
    (repairData (repairData s).2).1 = (false, []) := by
  by_cases hv : (validateStoredData s).1 = true
  · rw [repairData_of_valid s hv]
    rw [repairData_of_valid s hv]
  · have hv' : (validateStoredData s).1 = false := Bool.not_eq_true _ ▸ hv
    rw [repairData_invalid s hv']
    apply repairData_no_repairs
    · cases hn1 : ruleSetsRepairNeeded s with
      | true => simp only [hn1, if_true]; exact ruleSetsRepairNeeded_filtered s hWF _ _
      | false =>
          simp only [hn1, Bool.false_eq_true, if_false]
          rw [rsrn_mk]
          exact hn1
    · cases hn2 : formDataRepairNeeded s with
      | true =>
          simp only [hn2, if_true]
          rw [formDataRepairNeeded]
          rw [getFormDataJ_none _ rfl]
      | false =>
          simp only [hn2, Bool.false_eq_true, if_false]
          rw [fdrn_mk]
          exact hn2
    · cases hn3 : checklistRepairNeeded s with
      | true =>
          simp only [hn3, if_true]
          rw [checklistRepairNeeded]
          rw [getChecklistState_none _ rfl]
      | false =>
          simp only [hn3, Bool.false_eq_true, if_false]
          rw [clrn_mk]
          exact hn3

/-- A well-formed store that the first repair call does mutate: one rule
set lacking a name (dropped by the repair filter) makes validation fail. -/
def repairTwiceStore : Store :=
  ⟨some (.txt (.arr [.obj [("id", .str "a"), ("rules", .arr [])]])), none,
    some (.txt (.num 5))⟩

theorem repairData_idempotent_witness :
    Store.WF repairTwiceStore = true ∧
    (repairData (repairData repairTwiceStore).2).1 = (false, []) :=
  ⟨rfl, repairData_idempotent repairTwiceStore rfl⟩

/-! ## Claim C5 (amended): the actual per-family behaviour of repairData -/

theorem ruleSetsErrors_nil_elem (s : Store) (h : ruleSetsErrors s = []) :
    ∀ e ∈ getRuleSets s, ∃ k, ruleSetErrorsAt k e = [] := by
  intro e he
  obtain ⟨k, hk⟩ := List.mem_iff_get.mp he
  have hmem : ruleSetErrorsAt k e ∈ ((getRuleSets s).enum.map
      (fun p => ruleSetErrorsAt p.1 p.2)) := by
    apply List.mem_map.mpr
    refine ⟨(k, e), ?_, rfl⟩
    rw [List.mem_iff_get]
    refine ⟨⟨k, by simp [k.2]⟩, ?_⟩
    simp only [List.get_eq_getElem, List.getElem_enum]
    rw [Prod.ext_iff]
    exact ⟨rfl, by simpa using hk⟩
  refine ⟨k, ?_⟩
  rw [ruleSetsErrors, List.flatten_eq_nil_iff] at h
  exact h _ hmem

theorem ruleSetErrorsAt_nil_keep (k : Nat) (e : JVal) (h : ruleSetErrorsAt k e = []) :
    repairKeep e = true := by
  rw [ruleSetErrorsAt] at h
  simp only [List.append_eq_nil] at h
  have hid := h.1.1.1
  have hname := h.1.1.2
  have hrules := h.1.2
  rw [repairKeep]
  cases hcc : (!(truthy (getField e "id")) || jtypeof (getField e "id") != "string") with
  | true => rw [hcc] at hid; simp at hid
  | false =>
      cases hcn : (!(truthy (getField e "name")) || jtypeof (getField e "name") != "string") with
      | true => rw [hcn] at hname; simp at hname
      | false =>
          cases hcr : (!(isArr (getField e "rules"))) with
          | true => rw [hcr] at hrules; simp at hrules
          | false =>
              simp only [Bool.or_eq_false_iff, Bool.not_eq_false'] at hcc hcn
              rw [Bool.not_eq_false'] at hcr
              simp [hcc.1, hcn.1, hcr]

theorem valid_ruleSetsErrors_nil (s : Store) (hv : (validateStoredData s).1 = true) :
    ruleSetsErrors s = [] := by
  rw [validateStoredData] at hv
  simp only [List.isEmpty_iff, List.append_eq_nil] at hv
  exact hv.1.1.1

/-- The three fields the repair filter consults, as one tuple: the
date-blind core of a stored RuleSet. -/
def ruleSetCore (e : JVal) : List JVal :=
  [getField e "id", getField e "name", getField e "rules"]

/-- A non-date field survives serialise–parse–reconvert of a converted
pure object unchanged. -/
theorem getField_redecoded (x : JVal) (hx : isPure x = true) (f : String)
    (h1 : f ≠ "createdAt") (h2 : f ≠ "updatedAt") :
    getField (remapDates (norm (remapDates x))) f = getField (remapDates x) f := by
  rw [getField_remapDates_ne _ _ h1 h2, getField_norm_remapDates x hx f h1 h2,
    getField_remapDates_ne _ _ h1 h2]

theorem ruleSetCore_redecoded (x : JVal) (hx : isPure x = true) :
    ruleSetCore (remapDates (norm (remapDates x))) = ruleSetCore (remapDates x) := by
  rw [ruleSetCore, ruleSetCore,
    getField_redecoded x hx "id" (by decide) (by decide),
    getField_redecoded x hx "name" (by decide) (by decide),
    getField_redecoded x hx "rules" (by decide) (by decide)]

/-- C5 (amended): `repairData` drops individual elements only for the
rule-set family, and there at the stored-cell level: when its truthiness
filter (`id`, `name` truthy and `rules` an array) drops anything, the cell
is rewritten to exactly the kept elements' serialisation, otherwise it is
untouched, and in either case the RuleSets read back afterwards carry
exactly the kept elements' `id`, `name` and `rules`; a form-data value
decoding to an object and a checklist value decoding to an array are kept
in full, however invalid their elements; and a family whose text fails to
decode is left untouched, its key included, because the getters swallow
parse errors. -/
theorem repairData_per_family_policy (s : Store) (hWF : Store.WF s = true) :
    ((repairData s).2.ruleSets = (if ruleSetsRepairNeeded s then
        some (.txt (norm (.arr ((getRuleSets s).filter repairKeep)))) else s.ruleSets)) ∧
    ((getRuleSets (repairData s).2).map ruleSetCore =
      ((getRuleSets s).filter repairKeep).map ruleSetCore) ∧
    (∀ fs, s.formData = some (.txt (.obj fs)) → (repairData s).2.formData = s.formData) ∧
    (∀ xs, s.checklist = some (.txt (.arr xs)) → (repairData s).2.checklist = s.checklist) ∧
    (s.formData = some .bad → (repairData s).2.formData = s.formData) ∧
    (s.checklist = some .bad → (repairData s).2.checklist = s.checklist) ∧
    (s.ruleSets = some .bad → (repairData s).2.ruleSets = s.ruleSets) := by
  by_cases hv : (validateStoredData s).1 = true
  · have hkeepall : ∀ e ∈ getRuleSets s, repairKeep e = true := by
      intro e he
      obtain ⟨k, hk⟩ := ruleSetsErrors_nil_elem s (valid_ruleSetsErrors_nil s hv) e he
      exact ruleSetErrorsAt_nil_keep k e hk
    have hneed : ruleSetsRepairNeeded s = false := by
      rw [ruleSetsRepairNeeded, List.filter_eq_self.mpr hkeepall]
      simp
    rw [repairData_of_valid s hv]
    refine ⟨?_, ?_, fun _ _ => rfl, fun _ _ => rfl, fun _ => rfl, fun _ => rfl, fun _ => rfl⟩
    · simp [hneed]
    · rw [List.filter_eq_self.mpr hkeepall]
  · have hv' : (validateStoredData s).1 = false := Bool.not_eq_true _ ▸ hv
    rw [repairData_invalid s hv']
    refine ⟨rfl, ?_, ?_, ?_, ?_, ?_, ?_⟩
    · cases hn1 : ruleSetsRepairNeeded s with
      | true =>
          simp only [hn1, if_true]
          have hnn : ∀ e ∈ (getRuleSets s).filter repairKeep,
              jIsNullish (norm e) = false := by
            intro e he
            obtain ⟨x, _, rfl⟩ := WF_getRuleSets_elem s hWF e (List.mem_of_mem_filter he)
            exact norm_remapDates_not_nullish x
          rw [getRuleSets_mk_map _ _ rfl hnn, List.map_map]
          apply List.map_congr_left
          intro e he
          simp only [Function.comp_apply]
          obtain ⟨x, hx, rfl⟩ := WF_getRuleSets_elem s hWF e (List.mem_of_mem_filter he)
          exact ruleSetCore_redecoded x hx
      | false =>
          simp only [hn1, Bool.false_eq_true, if_false]
          rw [getRuleSets_mk_ext]
          rw [ruleSetsRepairNeeded] at hn1
          rw [List.filter_eq_self.mpr (List.filter_length_eq_length.mp (by
            rwa [bne_eq_false_iff_eq] at hn1))]
    · intro fs hfs
      have hfd : ∃ gs, getFormDataJ s = some (.obj gs) := by
        rw [getFormDataJ, hfs]
        simp only [jIsNullish, Bool.false_eq_true, if_false]
        cases hg : getField (.obj fs) "screenshots" with
        | arr xs => exact ⟨_, rfl⟩
        | null => exact ⟨fs, rfl⟩
        | undefined => exact ⟨fs, rfl⟩
        | jbool b => exact ⟨fs, rfl⟩
        | num n => exact ⟨fs, rfl⟩
        | str t => exact ⟨fs, rfl⟩
        | date d => exact ⟨fs, rfl⟩
        | obj gs => exact ⟨fs, rfl⟩
      obtain ⟨gs, hgs⟩ := hfd
      have hneed : formDataRepairNeeded s = false := by
        rw [formDataRepairNeeded, hgs]
        simp [truthy, jtypeof]
      simp [hneed]
    · intro xs hxs
      have hneed : checklistRepairNeeded s = false := by
        rw [checklistRepairNeeded, getChecklistState, hxs]
        simp [truthy, isArr]
      simp [hneed]
    · intro hb
      have hneed : formDataRepairNeeded s = false := by
        rw [formDataRepairNeeded, getFormDataJ, hb]
      simp [hneed]
    · intro hb
      have hneed : checklistRepairNeeded s = false := by
        rw [checklistRepairNeeded, getChecklistState, hb]
      simp [hneed]
    · intro hb
      have hneed : ruleSetsRepairNeeded s = false := by
        rw [ruleSetsRepairNeeded, getRuleSets, hb]
        rfl
      simp [hneed]

/-- A well-formed store exercising the amended policy: unparseable rule-set
and form-data text together with a decodable checklist holding an invalid
item. -/
def perFamilyStore : Store :=
  ⟨some .bad, some .bad,
    some (.txt (.arr [.obj [("id", .str "c1"), ("text", .str "t"), ("checked", .str "yes")]]))⟩

theorem repairData_per_family_policy_witness :
    Store.WF perFamilyStore = true ∧
    (((repairData perFamilyStore).2.ruleSets = (if ruleSetsRepairNeeded perFamilyStore then
        some (.txt (norm (.arr ((getRuleSets perFamilyStore).filter repairKeep))))
      else perFamilyStore.ruleSets)) ∧
    ((getRuleSets (repairData perFamilyStore).2).map ruleSetCore =
      ((getRuleSets perFamilyStore).filter repairKeep).map ruleSetCore) ∧
    (∀ fs, perFamilyStore.formData = some (.txt (.obj fs)) →
      (repairData perFamilyStore).2.formData = perFamilyStore.formData) ∧
    (∀ xs, perFamilyStore.checklist = some (.txt (.arr xs)) →
      (repairData perFamilyStore).2.checklist = perFamilyStore.checklist) ∧
    (perFamilyStore.formData = some .bad →
      (repairData perFamilyStore).2.formData = perFamilyStore.formData) ∧
    (perFamilyStore.checklist = some .bad →
      (repairData perFamilyStore).2.checklist = perFamilyStore.checklist) ∧
    (perFamilyStore.ruleSets = some .bad →
      (repairData perFamilyStore).2.ruleSets = perFamilyStore.ruleSets)) :=
  ⟨rfl, repairData_per_family_policy perFamilyStore rfl⟩

/-! ## Claim C8: only attachment names are persisted -/

theorem isPure_jvalOfRule (r : Rule) : isPure (jvalOfRule r) = true := by
  cases hd : r.description <;> simp [jvalOfRule, hd, isPure, isPureFields]

theorem isPureList_map_jvalOfRule (l : List Rule) : isPureList (l.map jvalOfRule) = true := by
  induction l with
  | nil => rfl
  | cons r rest ih => simp [isPureList, isPure_jvalOfRule r, ih]

theorem isPureList_map_str (l : List String) : isPureList (l.map JVal.str) = true := by
  induction l with
  | nil => rfl
  | cons a rest ih => simp [isPureList, isPure, ih]

theorem isPureList_map_fileObj (l : List FileObj) :
    isPureList (l.map (fun f => JVal.obj [("name", .str f.name)])) = true := by
  induction l with
  | nil => rfl
  | cons f rest ih => simp [isPureList, isPure, isPureFields, ih]

theorem isPure_jvalOfReportData (r : ReportData) : isPure (jvalOfReportData r) = true := by
  have hs := isPureList_map_fileObj r.screenshots
  cases hri : r.relatedIssues with
  | none => simp [jvalOfReportData, hri, isPure, isPureFields, hs]
  | some l => simp [jvalOfReportData, hri, isPure, isPureFields, hs, isPureList_map_str l]

/-- C8: saving a `ReportData` writes only the attachment names (the
screenshots field of the stored object is the list of file names), and a
subsequent `getFormData` returns a record whose screenshots field is the
empty sequence. -/
theorem saveFormData_names_only (s : Store) (rd : ReportData) :
    (∃ v, (saveFormDataJ s (jvalOfReportData rd)).formData = some (.txt v) ∧
      getField v "screenshots" = .arr (rd.screenshots.map (fun f => .str f.name))) ∧
    (∃ w, getFormDataJ (saveFormDataJ s (jvalOfReportData rd)) = some w ∧
      getField w "screenshots" = .arr []) := by
  have hscr : getField (jvalOfReportData rd) "screenshots" =
      .arr (rd.screenshots.map (fun f => JVal.obj [("name", .str f.name)])) := by
    simp [jvalOfReportData, getField, findField]
  have hnotnull : jIsNullish (jvalOfReportData rd) = false := by
    simp [jvalOfReportData, jIsNullish]
  have hguard : (rd.screenshots.map (fun f => JVal.obj [("name", .str f.name)])).any
      jIsNullish = false := by
    rw [List.any_eq_false]
    intro x hx
    obtain ⟨f, _, rfl⟩ := List.mem_map.mp hx
    simp [jIsNullish]
  have hnames : (rd.screenshots.map (fun f => JVal.obj [("name", .str f.name)])).map
      (fun file => getField file "name") = rd.screenshots.map (fun f => JVal.str f.name) := by
    rw [List.map_map]
    apply List.map_congr_left
    intro f _
    simp [getField, findField]
  have hstep : saveFormDataJ s (jvalOfReportData rd) =
      { s with formData := some (.txt (norm (spreadSet (jvalOfReportData rd) "screenshots"
          (.arr (rd.screenshots.map (fun f => JVal.str f.name)))))) } := by
    rw [saveFormDataJ, hnotnull]
    simp only [Bool.false_eq_true, if_false, hscr, hguard, hnames]
  have hpureF : isPureFields (fieldsOf (jvalOfReportData rd)) = true :=
    isPureFields_fieldsOf _ (isPure_jvalOfReportData rd)
  have hnormnames : normList (rd.screenshots.map (fun f => JVal.str f.name)) =
      rd.screenshots.map (fun f => JVal.str f.name) := by
    rw [normList_eq_map, List.map_map]
    apply List.map_congr_left
    intro f _
    rfl
  have hArrNotUndef : isUndefB (.arr (rd.screenshots.map (fun f => JVal.str f.name))) = false := rfl
  have hv : norm (spreadSet (jvalOfReportData rd) "screenshots"
        (.arr (rd.screenshots.map (fun f => JVal.str f.name)))) =
      .obj (setFields ((fieldsOf (jvalOfReportData rd)).map (fun kv => (kv.1, norm kv.2)))
        "screenshots" (.arr (rd.screenshots.map (fun f => JVal.str f.name)))) := by
    rw [spreadSet, norm, normFields_of_noUndef _ (all_noUndef_setFields _ _ _
      (isPureFields_noUndef _ hpureF) hArrNotUndef), map_setFields]
    rw [norm, hnormnames]
  have hread : getField (JVal.obj (setFields ((fieldsOf (jvalOfReportData rd)).map
      (fun kv => (kv.1, norm kv.2))) "screenshots"
      (.arr (rd.screenshots.map (fun f => JVal.str f.name))))) "screenshots" =
      .arr (rd.screenshots.map (fun f => JVal.str f.name)) := by
    rw [getField, findField_setFields_self]
  constructor
  · refine ⟨_, by rw [hstep], ?_⟩
    rw [hv, getField, findField_setFields_self]
  · have hgf : getFormDataJ (saveFormDataJ s (jvalOfReportData rd)) =
        some (.obj (setFields (setFields ((fieldsOf (jvalOfReportData rd)).map
          (fun kv => (kv.1, norm kv.2))) "screenshots"
          (.arr (rd.screenshots.map (fun f => JVal.str f.name)))) "screenshots" (.arr []))) := by
      rw [hstep]
      simp only [getFormDataJ, hv, jIsNullish, Bool.false_eq_true, if_false]
      rw [hread]
      rfl
    refine ⟨_, hgf, ?_⟩
    rw [getField, findField_setFields_self]

/-! ## Claim C9: rule-set storage keeps at most one RuleSet per identifier -/

theorem getField_spreadSet_ne' (x : JVal) (k f : String) (v : JVal) (h : f ≠ k) :
    getField (spreadSet x k v) f = getField x f := by
  rw [getField_spreadSet_ne _ _ _ _ h, ← getField_eq_findField]

/-- The non-date fields of an encoded RuleSet. -/
def ruleSetBaseFields (rs : RuleSet) : List (String × JVal) :=
  [("id", .str rs.id), ("name", .str rs.name), ("description", .str rs.description),
    ("version", .str rs.version), ("rules", .arr (rs.rules.map jvalOfRule))]

theorem isPureFields_ruleSetBaseFields (rs : RuleSet) :
    isPureFields (ruleSetBaseFields rs) = true := by
  simp [ruleSetBaseFields, isPureFields, isPure, isPureList_map_jvalOfRule]

theorem jvalOfRuleSet_shape (rs : RuleSet) :
    jvalOfRuleSet rs = .obj (setFields (setFields (ruleSetBaseFields rs) "createdAt"
      (.date (some rs.createdAt))) "updatedAt" (.date (some rs.updatedAt))) := by
  have h1 : setFields (ruleSetBaseFields rs) "createdAt" (.date (some rs.createdAt)) =
      ruleSetBaseFields rs ++ [("createdAt", .date (some rs.createdAt))] := by
    apply setFields_absent
    intro p hp
    simp [ruleSetBaseFields] at hp
    rcases hp with rfl | rfl | rfl | rfl | rfl <;> simp
  have h2 : ∀ p ∈ ruleSetBaseFields rs ++ [("createdAt", (.date (some rs.createdAt) : JVal))],
      p.1 ≠ "updatedAt" := by
    intro p hp
    simp [ruleSetBaseFields] at hp
    rcases hp with rfl | rfl | rfl | rfl | rfl | rfl <;> simp
  rw [h1, setFields_absent _ _ _ h2]
  rfl

theorem NFShape_jvalOfRuleSet (rs : RuleSet) : NFShape (jvalOfRuleSet rs) :=
  ⟨ruleSetBaseFields rs, rs.createdAt, rs.updatedAt,
    isPureFields_ruleSetBaseFields rs, jvalOfRuleSet_shape rs⟩

theorem getField_jvalOfRuleSet_id (rs : RuleSet) :
    getField (jvalOfRuleSet rs) "id" = .str rs.id := by
  simp [jvalOfRuleSet, getField, findField]

/-- Invariant of the rule-set cell along `saveRuleSet`/`removeRuleSet`
sequences from the empty store: either absent, or the serialisation of a
list of round-trip-stable entries with pairwise distinct string
identifiers. -/
def RuleSetsInv (s : Store) : Prop :=
  s.ruleSets = none ∨
  ∃ es : List JVal, s.ruleSets = some (.txt (norm (.arr es))) ∧
    (∀ e ∈ es, NFShape e ∧ ∃ i : String, getField e "id" = .str i) ∧
    ((es.map (fun e => getField e "id")).Pairwise (fun a b => jStrictEq a b = false))

theorem inv_getRuleSets (s : Store) (h : RuleSetsInv s) :
    (∀ e ∈ getRuleSets s, NFShape e ∧ ∃ i : String, getField e "id" = .str i) ∧
    ((getRuleSets s).map (fun e => getField e "id")).Pairwise
      (fun a b => jStrictEq a b = false) := by
  rcases h with h | ⟨es, hcell, hgood, hpw⟩
  · rw [getRuleSets, h]
    simp
  · rw [getRuleSets_mk s es hcell (fun e he => (hgood e he).1.nfgood)]
    exact ⟨hgood, hpw⟩

theorem saveRuleSetJ_characterised (s : Store) (h : RuleSetsInv s) (v : JVal)
    (hv : NFShape v) (i : String) (hvid : getField v "id" = .str i) (now : Nat) :
    RuleSetsInv (saveRuleSetJ s v now) ∧
    getRuleSets (saveRuleSetJ s v now) =
      (getRuleSets s).filter (fun rs => !(jStrictEq (getField rs "id") (getField v "id"))) ++
        [spreadSet v "updatedAt" (.date (some now))] := by
  obtain ⟨hgood, hpw⟩ := inv_getRuleSets s h
  set e' := spreadSet v "updatedAt" (.date (some now)) with he'
  have he'shape : NFShape e' := NFShape_spreadSet_updatedAt hv now
  have he'id : getField e' "id" = .str i := by
    rw [he', getField_spreadSet_ne' _ _ _ _ (by decide), hvid]
  set kept := (getRuleSets s).filter
    (fun rs => !(jStrictEq (getField rs "id") (getField v "id"))) with hkept
  have hkeptgood : ∀ e ∈ kept, NFShape e ∧ ∃ j : String, getField e "id" = .str j := by
    intro e he
    exact hgood e (List.mem_of_mem_filter he)
  have hcell' : (saveRuleSetJ s v now).ruleSets =
      some (.txt (norm (.arr (kept ++ [e'])))) := rfl
  have hesgood : ∀ e ∈ kept ++ [e'], NFShape e ∧ ∃ j : String, getField e "id" = .str j := by
    intro e he
    rcases List.mem_append.mp he with he | he
    · exact hkeptgood e he
    · simp at he
      subst he
      exact ⟨he'shape, i, he'id⟩
  have hpw' : ((kept ++ [e']).map (fun e => getField e "id")).Pairwise
      (fun a b => jStrictEq a b = false) := by
    rw [List.map_append, List.pairwise_append]
    refine ⟨List.Pairwise.sublist (List.Sublist.map _ (List.filter_sublist _)) hpw, by simp, ?_⟩
    intro a ha b hb
    simp only [List.map_cons, List.map_nil, List.mem_singleton] at hb
    subst hb
    obtain ⟨e, he, rfl⟩ := List.mem_map.mp ha
    have := List.of_mem_filter he
    rw [he'id, ← hvid]
    simpa using this
  refine ⟨Or.inr ⟨kept ++ [e'], hcell', hesgood, hpw'⟩, ?_⟩
  exact getRuleSets_mk _ _ hcell' (fun e he => (hesgood e he).1.nfgood)

theorem removeRuleSet_characterised (s : Store) (h : RuleSetsInv s) (rid : String) :
    RuleSetsInv (removeRuleSet s rid) ∧
    getRuleSets (removeRuleSet s rid) =
      (getRuleSets s).filter (fun rs => !(jStrictEq (getField rs "id") (.str rid))) := by
  obtain ⟨hgood, hpw⟩ := inv_getRuleSets s h
  set kept := (getRuleSets s).filter
    (fun rs => !(jStrictEq (getField rs "id") (.str rid))) with hkept
  have hcell' : (removeRuleSet s rid).ruleSets = some (.txt (norm (.arr kept))) := rfl
  have hkeptgood : ∀ e ∈ kept, NFShape e ∧ ∃ j : String, getField e "id" = .str j :=
    fun e he => hgood e (List.mem_of_mem_filter he)
  have hpw' : (kept.map (fun e => getField e "id")).Pairwise
      (fun a b => jStrictEq a b = false) :=
    List.Pairwise.sublist (List.Sublist.map _ (List.filter_sublist _)) hpw
  refine ⟨Or.inr ⟨kept, hcell', hkeptgood, hpw'⟩, ?_⟩
  exact getRuleSets_mk _ _ hcell' (fun e he => (hkeptgood e he).1.nfgood)

/-- One `saveRuleSet` or `removeRuleSet` call. -/
inductive StoreOp where
  | save (rs : RuleSet) (now : Nat)
  | remove (ruleSetId : String)

/-- Apply one operation. -/
def applyOp (s : Store) : StoreOp → Store
  | .save rs now => saveRuleSetJ s (jvalOfRuleSet rs) now
  | .remove rid => removeRuleSet s rid

/-- Apply a sequence of operations in order. -/
def applyOps (s : Store) : List StoreOp → Store
  | [] => s
  | op :: rest => applyOps (applyOp s op) rest

/-- The store with no keys set. -/
def emptyStore : Store := ⟨none, none, none⟩

theorem applyOps_inv (ops : List StoreOp) : RuleSetsInv (applyOps emptyStore ops) := by
  suffices h : ∀ (ops : List StoreOp) (s : Store), RuleSetsInv s → RuleSetsInv (applyOps s ops) by
    exact h ops emptyStore (Or.inl rfl)
  intro ops
  induction ops with
  | nil => exact fun s hs => hs
  | cons op rest ih =>
      intro s hs
      apply ih
      cases op with
      | save rs now =>
          exact (saveRuleSetJ_characterised s hs (jvalOfRuleSet rs) (NFShape_jvalOfRuleSet rs)
            rs.id (getField_jvalOfRuleSet_id rs) now).1
      | remove rid => exact (removeRuleSet_characterised s hs rid).1

/-- C9: starting from an empty store, after any sequence of `saveRuleSet`
and `removeRuleSet` calls the stored RuleSets have pairwise distinct
identifiers (at most one per id); a further `saveRuleSet rs` replaces
exactly the entries with `rs`'s id, appending the new copy with a refreshed
`updatedAt`; a further `removeRuleSet rid` removes exactly the entries with
that id and leaves all others unchanged. -/
theorem ruleSets_unique_by_id (ops : List StoreOp) :
    (((getRuleSets (applyOps emptyStore ops)).map (fun e => getField e "id")).Pairwise
      (fun a b => jStrictEq a b = false)) ∧
    (∀ (rs : RuleSet) (now : Nat),
      getRuleSets (saveRuleSetJ (applyOps emptyStore ops) (jvalOfRuleSet rs) now) =
        (getRuleSets (applyOps emptyStore ops)).filter
          (fun e => !(jStrictEq (getField e "id") (getField (jvalOfRuleSet rs) "id"))) ++
          [spreadSet (jvalOfRuleSet rs) "updatedAt" (.date (some now))]) ∧
    (∀ rid : String,
      getRuleSets (removeRuleSet (applyOps emptyStore ops) rid) =
        (getRuleSets (applyOps emptyStore ops)).filter
          (fun e => !(jStrictEq (getField e "id") (.str rid)))) := by
  have hinv := applyOps_inv ops
  refine ⟨(inv_getRuleSets _ hinv).2, fun rs now => ?_, fun rid => ?_⟩
  · exact (saveRuleSetJ_characterised _ hinv (jvalOfRuleSet rs) (NFShape_jvalOfRuleSet rs)
      rs.id (getField_jvalOfRuleSet_id rs) now).2
  · exact (removeRuleSet_characterised _ hinv rid).2

/-! ## Claim C2, positive part: the export/clear/import round trip on
RuleSets with pairwise distinct identifiers -/

theorem jtypeof_string (v : JVal) (h : jtypeof v = "string") : ∃ t, v = .str t := by
  cases v <;> simp_all [jtypeof]

/-- Element validity extracted from an empty rule-set error list. -/
theorem ruleSetsErrors_nil_id (s : Store) (h : ruleSetsErrors s = []) :
    ∀ e ∈ getRuleSets s, ∃ i : String, getField e "id" = .str i := by
  intro e he
  obtain ⟨k, hk⟩ := List.mem_iff_get.mp he
  have hmem : ruleSetErrorsAt k e ∈ ((getRuleSets s).enum.map
      (fun p => ruleSetErrorsAt p.1 p.2)) := by
    apply List.mem_map.mpr
    refine ⟨(k, e), ?_, rfl⟩
    rw [List.mem_iff_get]
    refine ⟨⟨k, by simp [k.2]⟩, ?_⟩
    simp only [List.get_eq_getElem, List.getElem_enum]
    rw [Prod.ext_iff]
    exact ⟨rfl, by simpa using hk⟩
  have hnil : ruleSetErrorsAt k e = [] := by
    rw [ruleSetsErrors, List.flatten_eq_nil_iff] at h
    exact h _ hmem
  rw [ruleSetErrorsAt] at hnil
  simp only [List.append_eq_nil] at hnil
  have hid := hnil.1.1
  cases hcc : (!(truthy (getField e "id")) || jtypeof (getField e "id") != "string") with
  | true => rw [hcc] at hid; simp at hid
  | false =>
      simp only [Bool.or_eq_false_iff, Bool.not_eq_false', bne_eq_false_iff_eq] at hcc
      exact jtypeof_string _ hcc.2

/-- Stored entries after a save, as seen by `getRuleSets`. -/
def savedEntry (e : JVal) (now : Nat) : JVal :=
  spreadSet e "updatedAt" (.date (some now))

/-- The six persistent attributes of a decoded RuleSet: identifier, name,
description, version, rules and creation date (`updatedAt` is refreshed by
`saveRuleSet` on every import, deliberately). -/
def coreOf (e : JVal) : List JVal :=
  [getField e "id", getField e "name", getField e "description",
    getField e "version", getField e "rules", getField e "createdAt"]

theorem coreOf_savedEntry (e : JVal) (now : Nat) : coreOf (savedEntry e now) = coreOf e := by
  simp only [coreOf, savedEntry]
  rw [getField_spreadSet_ne' _ _ _ _ (by decide), getField_spreadSet_ne' _ _ _ _ (by decide),
    getField_spreadSet_ne' _ _ _ _ (by decide), getField_spreadSet_ne' _ _ _ _ (by decide),
    getField_spreadSet_ne' _ _ _ _ (by decide), getField_spreadSet_ne' _ _ _ _ (by decide)]

theorem getField_savedEntry_id (e : JVal) (now : Nat) :
    getField (savedEntry e now) "id" = getField e "id" :=
  getField_spreadSet_ne' _ _ _ _ (by decide)

/-- The rule-set `forEach` of `importData` applied to the serialised form of
round-trip-stable entries saves the entries themselves back. -/
theorem importRuleSets_norm (orig : List JVal) (now : Nat) :
    ∀ s : Store, (∀ e ∈ orig, NFGood e) →
    importRuleSets s now (orig.map norm) =
      (orig.foldl (fun st e => saveRuleSetJ st e now) s, false) := by
  induction orig with
  | nil => intro s _; rfl
  | cons e rest ih =>
      intro s hg
      have h1 := (hg e (by simp)).2
      have h2 := (hg e (by simp)).1
      rw [List.map_cons, importRuleSets, h1]
      simp only [Bool.false_eq_true, if_false, h2, List.foldl_cons]
      exact ih _ (fun x hx => hg x (by simp [hx]))

/-- Folding `saveRuleSet` over entries with fresh, pairwise distinct string
identifiers appends them in order. -/
theorem foldSave_extends (rest : List JVal) (now : Nat) :
    ∀ (s : Store) (done : List JVal),
    RuleSetsInv s →
    getRuleSets s = done.map (fun e => savedEntry e now) →
    (∀ e ∈ rest, NFShape e ∧ ∃ i : String, getField e "id" = .str i) →
    (∀ e ∈ done, ∀ e' ∈ rest, jStrictEq (getField e "id") (getField e' "id") = false) →
    ((rest.map (fun e => getField e "id")).Pairwise (fun a b => jStrictEq a b = false)) →
    getRuleSets (rest.foldl (fun st e => saveRuleSetJ st e now) s) =
      (done ++ rest).map (fun e => savedEntry e now) := by
  induction rest with
  | nil => intro s done _ hdone _ _ _; simpa using hdone
  | cons e rest ih =>
      intro s done hinv hdone hgood hdisj hpw
      obtain ⟨i, hi⟩ := (hgood e (by simp)).2
      have hchar := saveRuleSetJ_characterised s hinv e (hgood e (by simp)).1 i hi now
      have hkeepall : (getRuleSets s).filter
          (fun rs => !(jStrictEq (getField rs "id") (getField e "id"))) = getRuleSets s := by
        apply List.filter_eq_self.mpr
        intro a ha
        rw [hdone] at ha
        obtain ⟨d, hd, rfl⟩ := List.mem_map.mp ha
        rw [getField_savedEntry_id]
        simp [hdisj d hd e (by simp)]
      have hstep : getRuleSets (saveRuleSetJ s e now) =
          (done ++ [e]).map (fun x => savedEntry x now) := by
        rw [hchar.2, hkeepall, hdone, List.map_append]
        rfl
      rw [List.foldl_cons]
      have hres := ih (saveRuleSetJ s e now) (done ++ [e]) hchar.1 hstep
        (fun x hx => hgood x (by simp [hx]))
        (by
          intro d hd e' he'
          rcases List.mem_append.mp hd with hd | hd
          · exact hdisj d hd e' (by simp [he'])
          · simp only [List.mem_singleton] at hd
            subst hd
            rw [List.map_cons, List.pairwise_cons] at hpw
            exact hpw.1 _ (List.mem_map_of_mem _ he'))
        (by
          rw [List.map_cons, List.pairwise_cons] at hpw
          exact hpw.2)
      rw [hres]
      simp

/-- C6 (amended): `importData` performs no per-RuleSet validation — a
bundle with a version field and two (pure, object-shaped) RuleSets with
distinct identifiers and parseable timestamp fields imports with
`success: true` and no errors, whatever their contents (in particular one
may have an empty rules array), and both end up appended to the store,
replacing only same-id entries. -/
theorem importData_no_ruleSet_validation (s : Store) (now : Nat) (v1 v2 : JVal)
    (hinv : RuleSetsInv s)
    (hp1 : isPure v1 = true) (hp2 : isPure v2 = true)
    (hn1 : jIsNullish v1 = false) (hn2 : jIsNullish v2 = false)
    (hd1c : isValidDate (newDate (getField v1 "createdAt")) = true)
    (hd1u : isValidDate (newDate (getField v1 "updatedAt")) = true)
    (hd2c : isValidDate (newDate (getField v2 "createdAt")) = true)
    (hd2u : isValidDate (newDate (getField v2 "updatedAt")) = true)
    (i1 i2 : String) (hid1 : getField v1 "id" = .str i1) (hid2 : getField v2 "id" = .str i2)
    (hne : i1 ≠ i2) :
    (importData s (.txt (.obj [("version", .str "1.0.0"), ("ruleSets", .arr [v1, v2])])) now).1 =
      (true, []) ∧
    getRuleSets (importData s (.txt (.obj [("version", .str "1.0.0"),
        ("ruleSets", .arr [v1, v2])])) now).2 =
      ((getRuleSets s).filter (fun e => !(jStrictEq (getField e "id") (.str i1)))).filter
          (fun e => !(jStrictEq (getField e "id") (.str i2))) ++
        [savedEntry (remapDates v1) now, savedEntry (remapDates v2) now] := by
  have hrid1 : getField (remapDates v1) "id" = .str i1 := by
    rw [getField_remapDates_ne _ _ (by decide) (by decide), hid1]
  have hrid2 : getField (remapDates v2) "id" = .str i2 := by
    rw [getField_remapDates_ne _ _ (by decide) (by decide), hid2]
  have hc1 := saveRuleSetJ_characterised s hinv (remapDates v1)
    (NFShape_remapDates v1 hp1 hd1c hd1u) i1 hrid1 now
  have hc2 := saveRuleSetJ_characterised _ hc1.1 (remapDates v2)
    (NFShape_remapDates v2 hp2 hd2c hd2u) i2 hrid2 now
  have hver : (!(truthy (getField (JVal.obj [("version", .str "1.0.0"),
      ("ruleSets", .arr [v1, v2])]) "version"))) = false := by
    simp [getField, findField, truthy]
  have hrs : getField (JVal.obj [("version", .str "1.0.0"),
      ("ruleSets", .arr [v1, v2])]) "ruleSets" = .arr [v1, v2] := by
    simp [getField, findField]
  have hfd : getField (JVal.obj [("version", .str "1.0.0"),
      ("ruleSets", .arr [v1, v2])]) "formData" = .undefined := by
    simp [getField, findField]
  have hcl : getField (JVal.obj [("version", .str "1.0.0"),
      ("ruleSets", .arr [v1, v2])]) "checklistState" = .undefined := by
    simp [getField, findField]
  have hsteps : importRuleSets s now [v1, v2] =
      (saveRuleSetJ (saveRuleSetJ s (remapDates v1) now) (remapDates v2) now, false) := by
    rw [importRuleSets, hn1]
    simp only [Bool.false_eq_true, if_false]
    rw [importRuleSets, hn2]
    simp only [Bool.false_eq_true, if_false]
    rfl
  rw [importData]
  simp only [jIsNullish, hver, Bool.false_eq_true, if_false, hrs, hsteps, hfd, hcl, truthy]
  refine ⟨rfl, ?_⟩
  rw [hc2.2, hc1.2, hrid1, hrid2, List.filter_append]
  have hsaved : (List.filter (fun rs => !(jStrictEq (getField rs "id") (.str i2)))
      [spreadSet (remapDates v1) "updatedAt" (.date (some now))]) =
      [spreadSet (remapDates v1) "updatedAt" (.date (some now))] := by
    rw [List.filter_eq_self.mpr]
    intro a ha
    simp only [List.mem_singleton] at ha
    subst ha
    rw [getField_spreadSet_ne' _ _ _ _ (by decide), hrid1]
    simp [jStrictEq, hne]
  rw [hsaved]
  simp [savedEntry]

theorem importData_no_ruleSet_validation_witness :
    (RuleSetsInv emptyStore ∧ isPure importValidRS = true ∧ isPure importEmptyRulesRS = true ∧
      jIsNullish importValidRS = false ∧ jIsNullish importEmptyRulesRS = false ∧
      isValidDate (newDate (getField importValidRS "createdAt")) = true ∧
      isValidDate (newDate (getField importValidRS "updatedAt")) = true ∧
      isValidDate (newDate (getField importEmptyRulesRS "createdAt")) = true ∧
      isValidDate (newDate (getField importEmptyRulesRS "updatedAt")) = true ∧
      getField importValidRS "id" = .str "a" ∧ getField importEmptyRulesRS "id" = .str "b" ∧
      "a" ≠ "b") ∧
    ((importData emptyStore (.txt (.obj [("version", .str "1.0.0"),
        ("ruleSets", .arr [importValidRS, importEmptyRulesRS])])) 9).1 = (true, []) ∧
    getRuleSets (importData emptyStore (.txt (.obj [("version", .str "1.0.0"),
        ("ruleSets", .arr [importValidRS, importEmptyRulesRS])])) 9).2 =
      ((getRuleSets emptyStore).filter
          (fun e => !(jStrictEq (getField e "id") (.str "a")))).filter
          (fun e => !(jStrictEq (getField e "id") (.str "b"))) ++
        [savedEntry (remapDates importValidRS) 9, savedEntry (remapDates importEmptyRulesRS) 9]) :=
  ⟨⟨Or.inl rfl, rfl, rfl, rfl, rfl, rfl, rfl, rfl, rfl, rfl, rfl, by decide⟩,
    importData_no_ruleSet_validation emptyStore 9 importValidRS importEmptyRulesRS
      (Or.inl rfl) rfl rfl rfl rfl rfl rfl rfl rfl "a" "b" rfl rfl (by decide)⟩

theorem jIsNullish_false_not_undef (v : JVal) (h : jIsNullish v = false) :
    isUndefB v = false := by
  cases v <;> simp_all [jIsNullish, isUndefB]

theorem optJ_getFormDataJ_not_undef (s : Store) : isUndefB (optJ (getFormDataJ s)) = false := by
  rw [getFormDataJ]
  cases s.formData with
  | none => rfl
  | some c =>
      cases c with
      | bad => rfl
      | txt v =>
          cases hv : jIsNullish v with
          | true => simp [hv, optJ, isUndefB]
          | false =>
              simp only [hv, Bool.false_eq_true, if_false]
              cases hsv : getField v "screenshots" <;>
                first
                  | rfl
                  | exact jIsNullish_false_not_undef v hv

theorem optJ_getChecklistState_not_undef (s : Store) (h : cellPure s.checklist = true) :
    isUndefB (optJ (getChecklistState s)) = false := by
  rw [getChecklistState]
  cases hc : s.checklist with
  | none => rfl
  | some c =>
      cases c with
      | bad => rfl
      | txt v =>
          rw [hc, cellPure] at h
          exact isPure_not_undef v h

theorem saveFormDataJ_ruleSets (s : Store) (v : JVal) :
    (saveFormDataJ s v).ruleSets = s.ruleSets := by
  rw [saveFormDataJ]
  split
  · rfl
  · split
    · rfl
    · rfl
    · split <;> rfl
    · rfl

theorem saveChecklistStateJ_ruleSets (s : Store) (v : JVal) :
    (saveChecklistStateJ s v).ruleSets = s.ruleSets := rfl

/-- C2 (amended): for a well-formed store whose persisted RuleSets all pass
validation, carry pairwise distinct identifiers and whose timestamp fields
decode to valid dates (validation never checks the latter; an Invalid Date
stringifies to `null` and re-imports as the epoch), export, clearAll and
re-import restore a RuleSet collection with the same identifiers, names,
descriptions, versions, rules and creation dates, in the same order (hence
order-insensitively equivalent); only `updatedAt` is refreshed by the
re-save that importing performs. -/
theorem exportImport_restores_ruleSets (s : Store) (tE tI : Nat)
    (hWF : Store.WF s = true)
    (hval : ruleSetsErrors s = [])
    (hids : ((getRuleSets s).map (fun e => getField e "id")).Pairwise
      (fun a b => jStrictEq a b = false))
    (hdates : ∀ e ∈ getRuleSets s, isValidDate (getField e "createdAt") = true ∧
      isValidDate (getField e "updatedAt") = true) :
    ((getRuleSets (importData (clearAllData s) (exportData s tE) tI).2).map coreOf) =
      (getRuleSets s).map coreOf := by
  have hNF : ∀ e ∈ getRuleSets s, NFShape e :=
    fun e he => WF_getRuleSets_NFShape s hWF e he (hdates e he).1 (hdates e he).2
  have hidstr : ∀ e ∈ getRuleSets s, ∃ i : String, getField e "id" = .str i :=
    ruleSetsErrors_nil_id s hval
  have hNG : ∀ e ∈ getRuleSets s, NFGood e := fun e he => (hNF e he).nfgood
  have hcp : cellPure s.checklist = true := by
    rw [Store.WF, Bool.and_eq_true, Bool.and_eq_true] at hWF
    exact hWF.2
  set bf : List (String × JVal) := [("ruleSets", .arr (getRuleSets s)),
    ("formData", optJ (getFormDataJ s)),
    ("checklistState", optJ (getChecklistState s)),
    ("exportedAt", .str (dateEncode tE)),
    ("version", .str "1.0.0")] with hbf
  have hnoU : bf.all (fun kv => !(isUndefB kv.2)) = true := by
    simp only [hbf, List.all_cons, List.all_nil, Bool.and_eq_true, Bool.not_eq_true',
      Bool.and_true]
    exact ⟨rfl, optJ_getFormDataJ_not_undef s, optJ_getChecklistState_not_undef s hcp, rfl, rfl⟩
  have hdata : exportData s tE = .txt (.obj [("ruleSets", .arr ((getRuleSets s).map norm)),
      ("formData", norm (optJ (getFormDataJ s))),
      ("checklistState", norm (optJ (getChecklistState s))),
      ("exportedAt", .str (dateEncode tE)),
      ("version", .str "1.0.0")]) := by
    rw [exportData, norm, normFields_of_noUndef _ hnoU]
    simp only [hbf, List.map_cons, List.map_nil]
    simp only [norm, normList_eq_map]
  rw [hdata, importData]
  have hver : (!(truthy (getField (JVal.obj [("ruleSets", .arr ((getRuleSets s).map norm)),
      ("formData", norm (optJ (getFormDataJ s))),
      ("checklistState", norm (optJ (getChecklistState s))),
      ("exportedAt", .str (dateEncode tE)),
      ("version", .str "1.0.0")]) "version"))) = false := by
    simp [getField, findField, truthy]
  have hrs : getField (JVal.obj [("ruleSets", .arr ((getRuleSets s).map norm)),
      ("formData", norm (optJ (getFormDataJ s))),
      ("checklistState", norm (optJ (getChecklistState s))),
      ("exportedAt", .str (dateEncode tE)),
      ("version", .str "1.0.0")]) "ruleSets" = .arr ((getRuleSets s).map norm) := by
    simp [getField, findField]
  simp only [jIsNullish, hver, Bool.false_eq_true, if_false, hrs]
  rw [importRuleSets_norm (getRuleSets s) tI (clearAllData s) hNG]
  simp only [Bool.false_eq_true, if_false]
  have hfold : getRuleSets ((getRuleSets s).foldl
      (fun st e => saveRuleSetJ st e tI) (clearAllData s)) =
      (getRuleSets s).map (fun e => savedEntry e tI) := by
    have := foldSave_extends (getRuleSets s) tI (clearAllData s) []
      (Or.inl rfl) rfl (fun e he => ⟨hNF e he, hidstr e he⟩) (by simp) hids
    simpa using this
  have hcellkeep : ∀ t3 : Store,
      t3.ruleSets = ((getRuleSets s).foldl (fun st e => saveRuleSetJ st e tI)
        (clearAllData s)).ruleSets →
      (getRuleSets t3).map coreOf = (getRuleSets s).map coreOf := by
    intro t3 ht3
    rw [getRuleSets_ext _ _ ht3, hfold, List.map_map]
    apply List.map_congr_left
    intro e _
    exact coreOf_savedEntry e tI
  apply hcellkeep
  split
  · rw [saveChecklistStateJ_ruleSets]
    split
    · rw [saveFormDataJ_ruleSets]
    · rfl
  · split
    · rw [saveFormDataJ_ruleSets]
    · rfl

/-! ## Claim C7: generator determinism and the single marker character -/

/-- Joining around a distinguished position: the surrounding text does not
depend on the element there. -/
theorem joinSep_split (sep : String) (xs ys : List String) :
    ∃ p s, ∀ mid, joinSep sep (xs ++ mid :: ys) = p ++ mid ++ s := by
  induction xs with
  | nil =>
      cases ys with
      | nil =>
          refine ⟨"", "", fun mid => ?_⟩
          rw [List.nil_append]
          rw [String.empty_append, String.append_empty]
          rfl
      | cons y ys' =>
          refine ⟨"", sep ++ joinSep sep (y :: ys'), fun mid => ?_⟩
          rw [List.nil_append]
          rw [String.empty_append, ← String.append_assoc]
          rfl
  | cons x xs' ih =>
      obtain ⟨p, s, hps⟩ := ih
      refine ⟨x ++ sep ++ p, s, fun mid => ?_⟩
      obtain ⟨z, zs, hzz⟩ : ∃ z zs, xs' ++ mid :: ys = z :: zs := by
        cases hxs : xs' ++ mid :: ys with
        | nil => simp at hxs
        | cons z zs => exact ⟨z, zs, rfl⟩
      have hstep : joinSep sep ((x :: xs') ++ mid :: ys) =
          x ++ sep ++ joinSep sep (xs' ++ mid :: ys) := by
        rw [List.cons_append, hzz]
        rfl
      rw [hstep, hps mid]
      simp [String.append_assoc]

/-- Composing two framings of a text around ever smaller middles. -/
theorem sandwich_trans (out mid mid' P S Q T : String)
    (h1 : out = P ++ mid ++ S) (h2 : mid = Q ++ mid' ++ T) :
    out = (P ++ Q) ++ mid' ++ (T ++ S) := by
  subst h2
  rw [h1]
  simp [String.append_assoc]

/-- Two grouping states that agree except for one item slot. -/
def GDiff (a₁ a₂ : ChecklistItem) (gs₁ gs₂ : List (String × List ChecklistItem)) : Prop :=
  ∃ pre k u v post,
    gs₁ = pre ++ (k, u ++ a₁ :: v) :: post ∧
    gs₂ = pre ++ (k, u ++ a₂ :: v) :: post

theorem GDiff_insert_same (a₁ a₂ : ChecklistItem) (key : String) :
    ∀ gs, GDiff a₁ a₂ (insertGrouped gs key a₁) (insertGrouped gs key a₂) := by
  intro gs
  induction gs with
  | nil => exact ⟨[], key, [], [], [], rfl, rfl⟩
  | cons g rest ih =>
      obtain ⟨k, items⟩ := g
      by_cases h : k = key
      · refine ⟨[], k, items, [], rest, ?_, ?_⟩ <;> simp [insertGrouped, h]
      · obtain ⟨pre, k', u, v, post, h1, h2⟩ := ih
        refine ⟨(k, items) :: pre, k', u, v, post, ?_, ?_⟩ <;>
          simp [insertGrouped, h, h1, h2]

theorem GDiff_insert (a₁ a₂ : ChecklistItem) (key : String) (it : ChecklistItem)
    (gs₁ gs₂ : List (String × List ChecklistItem)) (h : GDiff a₁ a₂ gs₁ gs₂) :
    GDiff a₁ a₂ (insertGrouped gs₁ key it) (insertGrouped gs₂ key it) := by
  obtain ⟨pre, k, u, v, post, h1, h2⟩ := h
  subst h1
  subst h2
  induction pre with
  | nil =>
      by_cases hk : k = key
      · refine ⟨[], k, u, v ++ [it], post, ?_, ?_⟩ <;>
          simp [insertGrouped, hk]
      · exact ⟨[], k, u, v, insertGrouped post key it,
          by simp [insertGrouped, hk], by simp [insertGrouped, hk]⟩
  | cons g pre' ih =>
      obtain ⟨kg, items⟩ := g
      by_cases hk : kg = key
      · refine ⟨(kg, items ++ [it]) :: pre', k, u, v, post, ?_, ?_⟩ <;>
          simp [insertGrouped, hk]
      · obtain ⟨pre'', k', u', v', post', hh1, hh2⟩ := ih
        refine ⟨(kg, items) :: pre'', k', u', v', post', ?_, ?_⟩ <;>
          simp [insertGrouped, hk, hh1, hh2]

theorem GDiff_foldl (a₁ a₂ : ChecklistItem) (ys : List ChecklistItem) :
    ∀ gs₁ gs₂, GDiff a₁ a₂ gs₁ gs₂ →
    GDiff a₁ a₂ (ys.foldl (fun gs item => insertGrouped gs (catKey item) item) gs₁)
      (ys.foldl (fun gs item => insertGrouped gs (catKey item) item) gs₂) := by
  induction ys with
  | nil => exact fun gs₁ gs₂ h => h
  | cons y ys' ih =>
      intro gs₁ gs₂ h
      exact ih _ _ (GDiff_insert a₁ a₂ (catKey y) y gs₁ gs₂ h)

theorem GDiff_groupByCategory (a₁ a₂ : ChecklistItem) (xs ys : List ChecklistItem)
    (hcat : a₁.category = a₂.category) :
    GDiff a₁ a₂ (groupByCategory (xs ++ a₁ :: ys)) (groupByCategory (xs ++ a₂ :: ys)) := by
  rw [groupByCategory, groupByCategory, List.foldl_append, List.foldl_append,
    List.foldl_cons, List.foldl_cons]
  apply GDiff_foldl
  rw [show catKey a₂ = catKey a₁ by rw [catKey, catKey, hcat]]
  exact GDiff_insert_same a₁ a₂ (catKey a₁) _

theorem renderGroup_split (k : String) (u v : List ChecklistItem) :
    ∃ P S, ∀ a : ChecklistItem, renderGroup (k, u ++ a :: v) = P ++ itemLine a ++ S := by
  obtain ⟨p, s, hps⟩ := joinSep_split "\n" (u.map itemLine) (v.map itemLine)
  refine ⟨"### " ++ k ++ "\n" ++ "" ++ "\n" ++ p, s, fun a => ?_⟩
  show joinSep "\n" ["### " ++ k, "", joinSep "\n" ((u ++ a :: v).map itemLine)] = _
  rw [List.map_append, List.map_cons, hps (itemLine a)]
  show "### " ++ k ++ "\n" ++ ("" ++ "\n" ++ (p ++ itemLine a ++ s)) = _
  simp only [String.append_assoc, String.empty_append]

theorem generateChecklistResults_split (pre post : List (String × List ChecklistItem)) :
    ∃ P S, ∀ (g : String × List ChecklistItem) (c : List ChecklistItem),
      c.isEmpty = false → groupByCategory c = pre ++ g :: post →
      generateChecklistResults c = P ++ renderGroup g ++ S := by
  obtain ⟨p, s, hps⟩ := joinSep_split "\n\n"
    (["## チェックリスト結果", ""] ++ pre.map renderGroup) (post.map renderGroup)
  refine ⟨p, s, fun g c hc hgc => ?_⟩
  rw [generateChecklistResults, hc]
  simp only [Bool.false_eq_true, if_false]
  rw [hgc, List.map_append, List.map_cons]
  rw [show ["## チェックリスト結果", ""] ++ (pre.map renderGroup ++ renderGroup g :: post.map renderGroup) =
    (["## チェックリスト結果", ""] ++ pre.map renderGroup) ++ renderGroup g :: post.map renderGroup by
    simp]
  exact hps (renderGroup g)

theorem generateMarkdown_split (r : ReportData) (now : String) :
    ∃ P S, ∀ c : List ChecklistItem,
      generateMarkdown c r now = P ++ generateChecklistResults c ++ S := by
  by_cases hrel : (generateRelatedIssues (r.relatedIssues.getD []) != "") = true
  · obtain ⟨p, s, hps⟩ := joinSep_split "\n"
      ["# 課題レビュー報告", "", generateBasicInfo r now, "-----", ""]
      (["-----", "", generateAttachments r.screenshots, "-----", "",
        generateDescription r.description] ++
        ["-----", "", generateRelatedIssues (r.relatedIssues.getD [])])
    refine ⟨p, s, fun c => ?_⟩
    rw [generateMarkdown]
    simp only [hrel, if_true]
    rw [show (["# 課題レビュー報告", "", generateBasicInfo r now, "-----", "",
        generateChecklistResults c, "-----", "", generateAttachments r.screenshots,
        "-----", "", generateDescription r.description] ++
        ["-----", "", generateRelatedIssues (r.relatedIssues.getD [])]) =
      ["# 課題レビュー報告", "", generateBasicInfo r now, "-----", ""] ++
        generateChecklistResults c ::
        (["-----", "", generateAttachments r.screenshots, "-----", "",
          generateDescription r.description] ++
          ["-----", "", generateRelatedIssues (r.relatedIssues.getD [])]) by simp]
    exact hps (generateChecklistResults c)
  · obtain ⟨p, s, hps⟩ := joinSep_split "\n"
      ["# 課題レビュー報告", "", generateBasicInfo r now, "-----", ""]
      ["-----", "", generateAttachments r.screenshots, "-----", "",
        generateDescription r.description]
    refine ⟨p, s, fun c => ?_⟩
    rw [generateMarkdown]
    simp only [Bool.not_eq_true] at hrel
    simp only [hrel, Bool.false_eq_true, if_false]
    rw [show ["# 課題レビュー報告", "", generateBasicInfo r now, "-----", "",
        generateChecklistResults c, "-----", "", generateAttachments r.screenshots,
        "-----", "", generateDescription r.description] =
      ["# 課題レビュー報告", "", generateBasicInfo r now, "-----", ""] ++
        generateChecklistResults c ::
        ["-----", "", generateAttachments r.screenshots, "-----", "",
          generateDescription r.description] by simp]
    exact hps (generateChecklistResults c)

/-- C7: with the embedded wall-clock text held fixed, `generateMarkdown` is
deterministic (it is a function of its arguments), and for two checklists
that differ only in the checked flag of one item the two outputs share a
common prefix and suffix around that item's single marker character
(space/`x`) — they differ in exactly that one character. -/
theorem generateMarkdown_marker_diff (c₁ c₂ : List ChecklistItem) (r : ReportData)
    (now : String) (xs ys : List ChecklistItem) (a₁ a₂ : ChecklistItem)
    (h₁ : c₁ = xs ++ a₁ :: ys) (h₂ : c₂ = xs ++ a₂ :: ys)
    (_hid : a₁.id = a₂.id) (htext : a₁.text = a₂.text)
    (hcat : a₁.category = a₂.category) (hchk : a₁.checked ≠ a₂.checked) :
    generateMarkdown c₁ r now = generateMarkdown c₁ r now ∧
    ∃ p q, generateMarkdown c₁ r now = p ++ (if a₁.checked then "x" else " ") ++ q ∧
      generateMarkdown c₂ r now = p ++ (if a₂.checked then "x" else " ") ++ q ∧
      (if a₁.checked then "x" else " ") ≠ (if a₂.checked then "x" else " ") := by
  refine ⟨rfl, ?_⟩
  obtain ⟨pre, k, u, v, post, hg1, hg2⟩ := GDiff_groupByCategory a₁ a₂ xs ys hcat
  obtain ⟨P0, S0, hGM⟩ := generateMarkdown_split r now
  obtain ⟨P1, S1, hCR⟩ := generateChecklistResults_split pre post
  obtain ⟨P2, S2, hRG⟩ := renderGroup_split k u v
  have hiL : ∀ a : ChecklistItem, itemLine a =
      "* [" ++ (if a.checked then "x" else " ") ++ ("] " ++ a.text) := by
    intro a
    rw [itemLine]
    simp [String.append_assoc]
  have hne1 : c₁.isEmpty = false := by rw [h₁]; simp
  have hne2 : c₂.isEmpty = false := by rw [h₂]; simp
  have out1 : generateMarkdown c₁ r now =
      ((P0 ++ P1) ++ P2 ++ "* [") ++ (if a₁.checked then "x" else " ") ++
        (("] " ++ a₁.text) ++ (S2 ++ (S1 ++ S0))) := by
    have s1 := hGM c₁
    have s2 := hCR (k, u ++ a₁ :: v) c₁ hne1 (by rw [h₁]; exact hg1)
    have s3 := hRG a₁
    have t1 := sandwich_trans _ _ _ _ _ _ _ s1 s2
    have t2 := sandwich_trans _ _ _ _ _ _ _ t1 s3
    have t3 := sandwich_trans _ _ _ _ _ _ _ t2 (hiL a₁)
    simpa [String.append_assoc] using t3
  have out2 : generateMarkdown c₂ r now =
      ((P0 ++ P1) ++ P2 ++ "* [") ++ (if a₂.checked then "x" else " ") ++
        (("] " ++ a₁.text) ++ (S2 ++ (S1 ++ S0))) := by
    have s1 := hGM c₂
    have s2 := hCR (k, u ++ a₂ :: v) c₂ hne2 (by rw [h₂]; exact hg2)
    have s3 := hRG a₂
    have t1 := sandwich_trans _ _ _ _ _ _ _ s1 s2
    have t2 := sandwich_trans _ _ _ _ _ _ _ t1 s3
    have t3 := sandwich_trans _ _ _ _ _ _ _ t2 (hiL a₂)
    rw [← htext]  at t3
    simpa [String.append_assoc] using t3
  refine ⟨(P0 ++ P1) ++ P2 ++ "* [", ("] " ++ a₁.text) ++ (S2 ++ (S1 ++ S0)),
    out1, out2, ?_⟩
  cases hb1 : a₁.checked <;> cases hb2 : a₂.checked <;> simp_all

theorem generateMarkdown_marker_diff_witness :
    ([ChecklistItem.mk "r1" "Check A" false (some "X")] =
        [] ++ ChecklistItem.mk "r1" "Check A" false (some "X") :: [] ∧
      [ChecklistItem.mk "r1" "Check A" true (some "X")] =
        [] ++ ChecklistItem.mk "r1" "Check A" true (some "X") :: [] ∧
      (ChecklistItem.mk "r1" "Check A" false (some "X")).id =
        (ChecklistItem.mk "r1" "Check A" true (some "X")).id ∧
      (ChecklistItem.mk "r1" "Check A" false (some "X")).text =
        (ChecklistItem.mk "r1" "Check A" true (some "X")).text ∧
      (ChecklistItem.mk "r1" "Check A" false (some "X")).category =
        (ChecklistItem.mk "r1" "Check A" true (some "X")).category ∧
      (ChecklistItem.mk "r1" "Check A" false (some "X")).checked ≠
        (ChecklistItem.mk "r1" "Check A" true (some "X")).checked) ∧
    (generateMarkdown [ChecklistItem.mk "r1" "Check A" false (some "X")]
        (ReportData.mk "PROJ-1" [] "" "high" "Bug" (some [])) "2025-01-01" =
      generateMarkdown [ChecklistItem.mk "r1" "Check A" false (some "X")]
        (ReportData.mk "PROJ-1" [] "" "high" "Bug" (some [])) "2025-01-01" ∧
    ∃ p q, generateMarkdown [ChecklistItem.mk "r1" "Check A" false (some "X")]
        (ReportData.mk "PROJ-1" [] "" "high" "Bug" (some [])) "2025-01-01" =
        p ++ (if (ChecklistItem.mk "r1" "Check A" false (some "X")).checked then "x" else " ") ++ q ∧
      generateMarkdown [ChecklistItem.mk "r1" "Check A" true (some "X")]
        (ReportData.mk "PROJ-1" [] "" "high" "Bug" (some [])) "2025-01-01" =
        p ++ (if (ChecklistItem.mk "r1" "Check A" true (some "X")).checked then "x" else " ") ++ q ∧
      (if (ChecklistItem.mk "r1" "Check A" false (some "X")).checked then "x" else " ") ≠
        (if (ChecklistItem.mk "r1" "Check A" true (some "X")).checked then "x" else " ")) :=
  ⟨⟨rfl, rfl, rfl, rfl, rfl, by decide⟩,
    generateMarkdown_marker_diff _ _ _ _ [] []
      (ChecklistItem.mk "r1" "Check A" false (some "X"))
      (ChecklistItem.mk "r1" "Check A" true (some "X"))
      rfl rfl rfl rfl rfl (by decide)⟩

/-! ## Claim C2, counterexample part: duplicate identifiers break the
export/clear/import round trip -/

/-- Two element-wise valid persisted RuleSets sharing one identifier. -/
def dupIdStore : Store :=
  ⟨some (.txt (.arr [
    .obj [("id", .str "a"), ("name", .str "N1"), ("rules", .arr []),
      ("createdAt", .str (dateEncode 1)), ("updatedAt", .str (dateEncode 1))],
    .obj [("id", .str "a"), ("name", .str "N2"), ("rules", .arr []),
      ("createdAt", .str (dateEncode 2)), ("updatedAt", .str (dateEncode 2))]])),
    none, none⟩

/-- A well-formed store with two valid RuleSets with distinct identifiers. -/
def roundTripStore : Store :=
  ⟨some (.txt (.arr [
    .obj [("id", .str "a"), ("name", .str "N1"), ("rules", .arr []),
      ("createdAt", .str (dateEncode 1)), ("updatedAt", .str (dateEncode 1))],
    .obj [("id", .str "b"), ("name", .str "N2"), ("rules", .arr [.str "x"]),
      ("createdAt", .num 7), ("updatedAt", .null)]])),
    none, none⟩

theorem exportImport_restores_ruleSets_witness :
    (Store.WF roundTripStore = true ∧ ruleSetsErrors roundTripStore = [] ∧
      ((getRuleSets roundTripStore).map (fun e => getField e "id")).Pairwise
        (fun a b => jStrictEq a b = false) ∧
      (∀ e ∈ getRuleSets roundTripStore, isValidDate (getField e "createdAt") = true ∧
        isValidDate (getField e "updatedAt") = true)) ∧
    ((getRuleSets (importData (clearAllData roundTripStore)
        (exportData roundTripStore 5) 6).2).map coreOf) =
      (getRuleSets roundTripStore).map coreOf :=
  ⟨⟨rfl, rfl, by
      rw [show (getRuleSets roundTripStore).map (fun e => getField e "id") =
        [.str "a", .str "b"] from rfl]
      exact List.pairwise_pair.mpr rfl, by decide⟩,
    exportImport_restores_ruleSets roundTripStore 5 6 rfl rfl (by
      rw [show (getRuleSets roundTripStore).map (fun e => getField e "id") =
        [.str "a", .str "b"] from rfl]
      exact List.pairwise_pair.mpr rfl) (by decide)⟩

/-- C2 (counterexample to the claim as stated): both persisted RuleSets
pass validation, yet after export, clearAll and import only the second
survives — `saveRuleSet` replaces by identifier, so the multiset of stored
RuleSets is not restored under any order-insensitive equivalence (the
RuleSet named `N1` is gone). -/
theorem exportImport_duplicate_id_counterexample :
    (validateStoredData dupIdStore).1 = true ∧
    ((getRuleSets dupIdStore).map (fun x => getField x "name")) = [.str "N1", .str "N2"] ∧
    ((getRuleSets (importData (clearAllData dupIdStore) (exportData dupIdStore 0) 1).2).map
      (fun x => getField x "name")) = [.str "N2"] :=
  ⟨rfl, rfl, rfl⟩

end BacklogAssist
